import Mathlib

/-!
# hogwildpp: `numasvm_main.cc`

A shallow embedding of the NUMA front end of the Hogwild! SVM trainer
(`src/src/numasvm_main.cc`): the replicated loader `NumaLoadSVMExamples`, the
replica/counter set-up `CreateNumaSVMModel`, and the argument handling and
scanner selection of `main`.

Conventions.
* C `int` values are mathematical integers in `[-2^31, 2^31)`; C `unsigned`
  values are naturals below `2^32`.  Every arithmetic step that can leave the
  range is wrapped explicitly (`toUInt32`, `toInt32`).
* C strings are lists of characters.
-/

namespace Hogwild

/-! ## 32-bit machine integers -/

/-- The 32-bit pattern of an integer (conversion to `unsigned`). -/
def toUInt32 (x : Int) : Nat := (x % 2 ^ 32).toNat

/-- The value of a 32-bit pattern read as a two's-complement `int`. -/
def toInt32 (u : Nat) : Int :=
  if u % 2 ^ 32 < 2 ^ 31 then ((u % 2 ^ 32 : Nat) : Int) else ((u % 2 ^ 32 : Nat) : Int) - 2 ^ 32

/-- Result of an `int` operation whose exact value is `x`, wrapped to 32 bits. -/
def wrapInt (x : Int) : Int := toInt32 (toUInt32 x)

/-- Count of leading zero bits below bit position `k` (bits `k-1`, `k-2`, ... of `x`). -/
def clzAux : Nat → Nat → Nat
  | 0, _ => 0
  | k + 1, x => if x.testBit k then 0 else 1 + clzAux k x

/-- The compiler builtin `__builtin_clz` on a 32-bit `unsigned`: the number of
leading zero bits.  C leaves the result for `0` undefined; here it is `32`. -/
def builtin_clz (x : Nat) : Nat := clzAux 32 x

/-- The `int` shift `a << k`, wrapped to 32 bits. -/
def shl32 (a : Int) (k : Nat) : Int := toInt32 (toUInt32 a * 2 ^ k)

/-! ## `CreateNumaSVMModel` -/

/-- Calls into libnuma and the scanner that the front end performs, in order.  The node
argument is the `int` the call receives; the loop counters are `unsigned` and convert to
the same number for every node index below `2^31`. -/
inductive Action where
  | scanReset
  | numa_run_on_node (node : Int)
  | numa_set_preferred (node : Int)
  | loadPass (i : Nat)
  deriving DecidableEq, Repr

/-- The per-node model record, with the fields `CreateNumaSVMModel` writes.
`weights` is the length passed to `AllocateModel`; `atomic_ptr` identifies the
shared counter cell. -/
structure NumaSVMModel where
  weights : Nat
  atomic_ptr : Nat
  atomic_mask : Int
  atomic_inc_value : Int
  deriving DecidableEq, Repr

/-- Line 63: `(1 << (sizeof(int) * 8 - __builtin_clz(nnodes))) - 1`. -/
def atomic_mask (nnodes : Nat) : Int :=
  wrapInt (shl32 1 (32 - builtin_clz nnodes) - 1)

/-- Line 73: `atomic_mask - nthreads + 1`, evaluated in `unsigned` arithmetic
(the `int` mask is converted to `unsigned`) and stored into an `int` field. -/
def lastIncValue (mask : Int) (nthreads : Nat) : Int :=
  toInt32 (toUInt32 ((toUInt32 mask : Int) - (nthreads : Int) + 1))

/-- Lines 72-77: the increment stored for node `i`.  The comparison
`i == nnodes - 1` is an `unsigned` one. -/
def incValue (nnodes nthreads i : Nat) : Int :=
  if i = toUInt32 ((nnodes : Int) - 1) then lastIncValue (atomic_mask nnodes) nthreads else 1

/-- Body of the loop of lines 65-78 for node `i`: the record written to `node_m[i]`. -/
def nodeModel (ptr nfeats nnodes nthreads i : Nat) : NumaSVMModel :=
  { weights := nfeats
    atomic_ptr := ptr
    atomic_mask := atomic_mask nnodes
    atomic_inc_value := incValue nnodes nthreads i }

/-- The affinity calls of loop iteration `i` (lines 66-67). -/
def nodeActions (i : Nat) : List Action :=
  [Action.numa_run_on_node (i : Int), Action.numa_set_preferred (i : Int)]

/-- Source `CreateNumaSVMModel`: the array `node_m[0..nnodes)` after the call and the
libnuma calls made (the two `printf` lines are left out).  `ptr` stands for the cell
returned by `new int`, whose content is not initialised. -/
def CreateNumaSVMModel (ptr nfeats nnodes nthreads : Nat) : List NumaSVMModel × List Action :=
  ((List.range nnodes).map (nodeModel ptr nfeats nnodes nthreads),
   [Action.numa_run_on_node 0, Action.numa_set_preferred 0]
     ++ (List.range nnodes).flatMap nodeActions
     ++ [Action.numa_run_on_node (-1), Action.numa_set_preferred (-1)])

/-- The increments stored in the replicas, in node order. -/
def increments (nnodes nthreads : Nat) : List Int :=
  (CreateNumaSVMModel 0 0 nnodes nthreads).1.map NumaSVMModel.atomic_inc_value

/-! ## The cross-node counter -/

/-- Modelled from the spec: the counter update of section 4.3, "increments are
applied using atomic fetch-and-add" (the code applying it is in `svm_exec`, which
is not part of the sources at hand).  The `int` cell holds `c`; afterwards it holds
`c + inc` in two's-complement arithmetic. -/
def fetchAndAdd (c inc : Int) : Int := wrapInt (c + inc)

/-- Modelled from the spec: the counter read of section 3, "a bitmask defining its
wraparound modulus": the cell value under the mask, `c & mask` on 32-bit patterns. -/
def underMask (c mask : Int) : Int := toInt32 (toUInt32 c &&& toUInt32 mask)

/-- The cell after the increments `incs` have been added one after the other. -/
def applyIncrements (c : Int) (incs : List Int) : Int := incs.foldl fetchAndAdd c

/-- One round of `nthreads` increments as described by property P3 of the spec:
`nthreads - 1` unit increments and one increment of the last node's amount. -/
def roundIncrements (nnodes nthreads : Nat) : List Int :=
  List.replicate (nthreads - 1) 1 ++ [lastIncValue (atomic_mask nnodes) nthreads]

/-! ## `NumaLoadSVMExamples` -/

/-- A training record: a label and a sparse feature vector of (index, value) pairs. -/
structure SVMExample (V : Type) where
  value : V
  vector : List (Nat × V)
  deriving DecidableEq, Repr

/-- Modelled from the spec: the record source of sections 4.1 and 6 (the scanner classes
are not part of the sources at hand), "a record source must support `Reset()` (rewind to
start) and sequential production of (label, sparse-feature-vector) pairs".  A source is
its sequence of records and the read position. -/
structure Scan (V : Type) where
  records : List (SVMExample V)
  pos : Nat
  deriving DecidableEq, Repr

/-- Modelled from the spec: `Reset()`, "rewind to start". -/
def Scan.Reset {V : Type} (scan : Scan V) : Scan V := { scan with pos := 0 }

/-- The largest feature index among the records (`0` when there is none). -/
def maxFeatureIndex {V : Type} (exs : List (SVMExample V)) : Nat :=
  (exs.flatMap (fun e => e.vector.map Prod.fst)).foldl max 0

/-- Modelled from the spec: `LoadSVMExamples` (`svm/svm_loader.h` is not part of the
sources at hand).  It consumes the source from its current position to end-of-data, stores
the records read as the given partition and "returns the inferred feature dimensionality
(max feature index seen + 1)".  Result: the source afterwards, the partition, the
dimensionality. -/
def LoadSVMExamples {V : Type} (scan : Scan V) : Scan V × List (SVMExample V) × Nat :=
  let read := scan.records.drop scan.pos
  ({ scan with pos := max scan.pos scan.records.length }, read, maxFeatureIndex read + 1)

/-- A two-record source used in worked instances. -/
def sampleRecords : List (SVMExample Int) :=
  [{ value := 1, vector := [(0, 2), (3, 5)] }, { value := -1, vector := [(1, 4)] }]

/-- The state `NumaLoadSVMExamples` works on: the scanner, the array `nodeex`, the local
`nfeats`, and the calls made so far. -/
structure LoadState (V : Type) where
  scan : Scan V
  nodeex : List (List (SVMExample V))
  nfeats : Nat
  trace : List Action
  deriving DecidableEq, Repr

/-- Lines 49-52: the calls of one loop iteration, for node `i`, in order. -/
def passCalls (i : Nat) : List Action :=
  [Action.scanReset, Action.numa_run_on_node (i : Int), Action.numa_set_preferred (i : Int),
    Action.loadPass i]

/-- Lines 49-52: one iteration of the loop, for node `i`. -/
def loadIter {V : Type} (st : LoadState V) (i : Nat) : LoadState V :=
  let scan1 := st.scan.Reset
  let r := LoadSVMExamples scan1
  { scan := r.1
    nodeex := st.nodeex.set i r.2.1
    nfeats := r.2.2
    trace := st.trace ++ passCalls i }

/-- Source `NumaLoadSVMExamples`: the returned `nfeats` and the state on return. -/
def NumaLoadSVMExamples {V : Type} (scan : Scan V) (nodeex : List (List (SVMExample V)))
    (nnodes : Nat) : Nat × LoadState V :=
  let st := (List.range nnodes).foldl loadIter
    { scan := scan, nodeex := nodeex, nfeats := 0, trace := [] }
  (st.nfeats,
   { st with trace := st.trace ++ [Action.numa_run_on_node (-1), Action.numa_set_preferred (-1)] })

/-- The affinity in force, as named by the most recent libnuma calls (`none`: not set by
the calls seen so far). -/
structure Affinity where
  run : Option Int
  preferred : Option Int
  deriving DecidableEq, Repr

/-- Effect of one call on the affinity. -/
def Affinity.step (a : Affinity) : Action → Affinity
  | Action.numa_run_on_node n => { a with run := some n }
  | Action.numa_set_preferred n => { a with preferred := some n }
  | _ => a

/-- The affinity after a sequence of calls. -/
def Affinity.after (a : Affinity) (tr : List Action) : Affinity := tr.foldl Affinity.step a

/-- Checks a sequence of calls: every load pass `i` happens with execution and preferred
memory both set to node `i`, and with the scanner reset since the previous pass.
`fresh` tells whether the scanner has been reset since the last pass. -/
def passesLocal : Affinity → Bool → List Action → Bool
  | _, _, [] => true
  | a, _, Action.scanReset :: tr => passesLocal a true tr
  | a, fresh, Action.numa_run_on_node n :: tr => passesLocal { a with run := some n } fresh tr
  | a, fresh, Action.numa_set_preferred n :: tr =>
      passesLocal { a with preferred := some n } fresh tr
  | a, fresh, Action.loadPass i :: tr =>
      decide (a.run = some (i : Int)) && decide (a.preferred = some (i : Int)) && fresh
        && passesLocal a false tr

/-- The nodes of the load passes in a sequence of calls, in order. -/
def passOrder : List Action → List Nat
  | [] => []
  | Action.loadPass i :: tr => i :: passOrder tr
  | _ :: tr => passOrder tr

/-! ## `main`: option table and `getopt_long` -/

/-- C strings. -/
abbrev CString := List Char

/-- One row of the option table (`struct extended_option`): long name, `has_arg`
(`0` no argument, `1` `required_argument`, `2` optional), the value returned by
`getopt_long` (the `flag` member is `NULL` in every row), and the help text. -/
structure extended_option where
  name : CString
  has_arg : Nat
  val : Char
  msg : String
  deriving DecidableEq, Repr

/-- The constant `required_argument` of `<getopt.h>`. -/
def required_argument : Nat := 1

/-- Lines 93-104: the option table of `main`.  `convert_extended_options` (declared in
`frontend_util.h`, not part of the sources at hand) is taken to hand name, `has_arg` and
`val` of every row unchanged to `getopt_long`. -/
def long_options : List extended_option :=
  [ { name := "mu".toList, has_arg := required_argument, val := 'u', msg := "the maxnorm" },
    { name := "epochs".toList, has_arg := required_argument, val := 'e',
      msg := "number of epochs (default is 20)" },
    { name := "stepinitial".toList, has_arg := required_argument, val := 'i',
      msg := "intial stepsize (default is 5e-2)" },
    { name := "step_decay".toList, has_arg := required_argument, val := 'd',
      msg := "stepsize decay per epoch (default is 0.8)" },
    { name := "seed".toList, has_arg := required_argument, val := 's',
      msg := "random seed (o.w. selected by time, 0 is reserved)" },
    { name := "splits".toList, has_arg := required_argument, val := 'r',
      msg := "number of threads (default is 1)" },
    { name := "binary".toList, has_arg := required_argument, val := 'v',
      msg := "load the file in a binary fashion" },
    { name := "matlab-tsv".toList, has_arg := required_argument, val := 'm',
      msg := "load TSVs indexing from 1 instead of 0" } ]

/-- Line 106: `usage_str`. -/
def usage_str : CString := "<train file> <test file>".toList

/-- Why a `getopt_long` call returned `'?'`. -/
inductive GetoptError where
  | unknownOption
  | missingArgument
  | unexpectedArgument
  deriving DecidableEq, Repr

/-- One return of `getopt_long`: the returned character, `optarg`, and the error
diagnosed (if any). -/
structure GetoptRet where
  c : Char
  optarg : CString
  err : Option GetoptError
  deriving DecidableEq, Repr

/-- The return for a diagnosed error: `'?'` (the option string `""` does not start
with `':'`, so `':'` is never returned). -/
def errRet (e : GetoptError) : GetoptRet := { c := '?', optarg := [], err := some e }

/-- Everything `main` observes of a full run of `getopt_long` calls up to the final `-1`:
the successive returns, and the permuted `argv`, which holds the program name, then the
elements consumed as options (`optElems`), then the non-options (`nonOpts`). -/
structure GetoptRun where
  rets : List GetoptRet
  optElems : List CString
  nonOpts : List CString
  deriving DecidableEq, Repr

/-- Long-option lookup of glibc: an exact match wins; otherwise the name must be a
prefix of exactly one table entry. -/
def lookupLong (opts : List extended_option) (name : CString) : Option extended_option :=
  match opts.find? (fun o => decide (o.name = name)) with
  | some o => some o
  | none =>
    match opts.filter (fun o => name.isPrefixOf o.name) with
    | [o] => some o
    | _ => none

/-- How `getopt_long` (GNU, permuting, option string `""`) sees one `argv` element in
option position. -/
inductive ArgClass where
  | endOfOptions
  | nonOption
  | shortOptions (cs : List Char)
  | longUnknown
  | longValue (o : extended_option) (v : CString)
  | longBare (o : extended_option)
  | longPending (o : extended_option)
  | longExtra (o : extended_option)
  deriving DecidableEq, Repr

/-- Classification of an `argv` element: `--` ends the options; `--name` and
`--name=value` are long options; `-x...` is a cluster of short options; everything else
(including `-`) is a non-option. -/
def classify (opts : List extended_option) (arg : CString) : ArgClass :=
  match arg with
  | ['-', '-'] => ArgClass.endOfOptions
  | '-' :: '-' :: body =>
    match lookupLong opts (body.takeWhile (fun ch => ch != '=')),
        body.dropWhile (fun ch => ch != '=') with
    | none, _ => ArgClass.longUnknown
    | some o, _ :: v => if o.has_arg = 0 then ArgClass.longExtra o else ArgClass.longValue o v
    | some o, [] => if o.has_arg = 1 then ArgClass.longPending o else ArgClass.longBare o
  | '-' :: ch :: cs => ArgClass.shortOptions (ch :: cs)
  | _ => ArgClass.nonOption

/-- Records the returns `rs` produced by the option element `arg` in front of a run. -/
def GetoptRun.consume (run : GetoptRun) (rs : List GetoptRet) (arg : CString) : GetoptRun :=
  { run with rets := rs ++ run.rets, optElems := arg :: run.optElems }

/-- The run of `getopt_long` over the elements after the program name.  The first
argument is the long option still waiting for its argument, if any. -/
def getoptScan (opts : List extended_option) :
    Option extended_option → List CString → GetoptRun
  | none, [] => { rets := [], optElems := [], nonOpts := [] }
  | some _, [] => { rets := [errRet GetoptError.missingArgument], optElems := [], nonOpts := [] }
  | some o, arg :: rest =>
    (getoptScan opts none rest).consume [{ c := o.val, optarg := arg, err := none }] arg
  | none, arg :: rest =>
    match classify opts arg with
    | ArgClass.endOfOptions => { rets := [], optElems := [arg], nonOpts := rest }
    | ArgClass.nonOption =>
      let run := getoptScan opts none rest
      { run with nonOpts := arg :: run.nonOpts }
    | ArgClass.shortOptions cs =>
      (getoptScan opts none rest).consume
        (cs.map (fun _ => errRet GetoptError.unknownOption)) arg
    | ArgClass.longUnknown =>
      (getoptScan opts none rest).consume [errRet GetoptError.unknownOption] arg
    | ArgClass.longValue o v =>
      (getoptScan opts none rest).consume [{ c := o.val, optarg := v, err := none }] arg
    | ArgClass.longBare o =>
      (getoptScan opts none rest).consume [{ c := o.val, optarg := [], err := none }] arg
    | ArgClass.longPending o => (getoptScan opts (some o) rest).consume [] arg
    | ArgClass.longExtra _ =>
      (getoptScan opts none rest).consume [errRet GetoptError.unexpectedArgument] arg

/-- Where the scan stands after the elements `pre`: `some pending` while options are still
being looked for (with the long option waiting for its argument, if any), `none` once `--`
has ended the options. -/
def scanState (opts : List extended_option) :
    Option extended_option → List CString → Option (Option extended_option)
  | p, [] => some p
  | some _, _ :: rest => scanState opts none rest
  | none, arg :: rest =>
    match classify opts arg with
    | ArgClass.endOfOptions => none
    | ArgClass.longPending o => scanState opts (some o) rest
    | _ => scanState opts none rest

/-- The `seed` row of the option table (line 98). -/
def seedRow : extended_option :=
  { name := "seed".toList, has_arg := required_argument, val := 's',
    msg := "random seed (o.w. selected by time, 0 is reserved)" }

/-- All `getopt_long(argc, argv, "", opts, ...)` calls of the loop of line 109, with
`POSIXLY_CORRECT` unset (GNU argument permutation). -/
def getopt_long (argv : List CString) (opts : List extended_option) : GetoptRun :=
  getoptScan opts none argv.tail

/-- The value of `optind` after the last call. -/
def GetoptRun.optind (run : GetoptRun) : Nat := 1 + run.optElems.length

/-- The vector `argv` after the last call (permuted). -/
def GetoptRun.argv (run : GetoptRun) (argv : List CString) : List CString :=
  argv.take 1 ++ run.optElems ++ run.nonOpts

/-! ## `main`: argument handling and scanner selection -/

/-- The C library conversions `main` uses (`atof` together with the conversion of its
result to `float`), and the `float` type with the three literals of line 92. -/
structure Libc (F : Type) where
  atoi : CString → Int
  atof : CString → F
  lit_1_0 : F
  lit_5e_2 : F
  lit_0_8 : F

/-- The locals of `main` that option parsing sets (lines 88-92). -/
structure Config (F : Type) where
  matlab_tsv : Bool
  loadBinary : Bool
  nepochs : Nat
  nthreads : Nat
  mu : F
  step_size : F
  step_decay : F
  deriving DecidableEq, Repr

/-- Lines 88-92: the initial values. -/
def Config.initial {F : Type} (lc : Libc F) : Config F :=
  { matlab_tsv := false, loadBinary := false, nepochs := 20, nthreads := 1,
    mu := lc.lit_1_0, step_size := lc.lit_5e_2, step_decay := lc.lit_0_8 }

/-- Lines 111-138: the `switch` on one return of `getopt_long`; `none` is the path
`print_usage(...); exit(-1)`. -/
def optionStep {F : Type} (lc : Libc F) (cfg : Config F) (r : GetoptRet) : Option (Config F) :=
  if r.c = 'v' then some { cfg with loadBinary := decide (lc.atoi r.optarg ≠ 0) }
  else if r.c = 'm' then some { cfg with matlab_tsv := decide (lc.atoi r.optarg ≠ 0) }
  else if r.c = 'u' then some { cfg with mu := lc.atof r.optarg }
  else if r.c = 'e' then some { cfg with nepochs := toUInt32 (lc.atoi r.optarg) }
  else if r.c = 'i' then some { cfg with step_size := lc.atof r.optarg }
  else if r.c = 'd' then some { cfg with step_decay := lc.atof r.optarg }
  else if r.c = 'r' then some { cfg with nthreads := toUInt32 (lc.atoi r.optarg) }
  else if r.c = ':' ∨ r.c = '?' then none
  else some cfg

/-- Lines 109-139: the option loop over the successive returns. -/
def parseOptions {F : Type} (lc : Libc F) : Config F → List GetoptRet → Option (Config F)
  | cfg, [] => some cfg
  | cfg, r :: rs =>
    match optionStep lc cfg r with
    | none => none
    | some cfg1 => parseOptions lc cfg1 rs

/-- The three record scanners. -/
inductive ScanKind where
  | BinaryFileScanner
  | MatlabTSVFileScanner
  | TSVFileScanner
  deriving DecidableEq, Repr

/-- Lines 163-174: the scanner opened on the training file. -/
def trainScanner {F : Type} (cfg : Config F) : ScanKind :=
  if cfg.loadBinary then ScanKind.BinaryFileScanner
  else if cfg.matlab_tsv then ScanKind.MatlabTSVFileScanner
  else ScanKind.TSVFileScanner

/-- Lines 175-181: the scanner opened on the test file. -/
def testScanner {F : Type} (cfg : Config F) : ScanKind :=
  if cfg.matlab_tsv then ScanKind.MatlabTSVFileScanner else ScanKind.TSVFileScanner

/-- What `main` does up to the point where both files have been handed to a scanner:
either `print_usage(long_options, argv[0], usage)` followed by `exit(status)`, with no
scanner constructed, or the parsed locals and the two scanners opened, in this order, on
`szExampleFile` and `szTestFile`. -/
inductive MainOutcome (F : Type) where
  | usageExit (usage : CString) (status : Int)
  | loading (cfg : Config F) (szExampleFile szTestFile : CString) (train test : ScanKind)
  deriving DecidableEq, Repr

/-- Source `main`, lines 88-181. -/
def main {F : Type} (lc : Libc F) (argv : List CString) : MainOutcome F :=
  let run := getopt_long argv long_options
  match parseOptions lc (Config.initial lc) run.rets with
  | none => MainOutcome.usageExit usage_str (-1)
  | some cfg =>
    let argc : Int := argv.length
    if (run.optind : Int) = argc - 2 then
      let szExampleFile := (run.argv argv).getD run.optind []
      let szTestFile := (run.argv argv).getD (run.optind + 1) []
      MainOutcome.loading cfg szExampleFile szTestFile (trainScanner cfg) (testScanner cfg)
    else MainOutcome.usageExit usage_str (-1)

/-- The C library `isspace` in the C locale: space, and the control characters 9 to 13. -/
def isspace (ch : Char) : Bool := ch.toNat = 32 || (9 ≤ ch.toNat && ch.toNat ≤ 13)

/-- The C library `atoi`: leading white space, an optional sign, then decimal digits; the
value is taken to 32 bits. -/
def atoi (s : CString) : Int :=
  let digits (t : List Char) : Int :=
    (t.takeWhile Char.isDigit).foldl (fun acc ch => acc * 10 + ((ch.toNat : Int) - 48)) 0
  match s.dropWhile isspace with
  | '-' :: t => wrapInt (- digits t)
  | '+' :: t => wrapInt (digits t)
  | t => wrapInt (digits t)

/-- A C library instance for worked examples: `atoi` as above, and `float` values kept as
their text. -/
def textLibc : Libc CString :=
  { atoi := atoi, atof := id, lit_1_0 := "1.0".toList, lit_5e_2 := "5e-2".toList,
    lit_0_8 := "0.8".toList }

/-- The effective setting of a 0/1 option with value `c`: the last occurrence decides,
and the option is off when it is not given. -/
def flagSetting {F : Type} (lc : Libc F) (c : Char) (rets : List GetoptRet) : Bool :=
  match (rets.filter (fun r => decide (r.c = c))).getLast? with
  | some r => decide (lc.atoi r.optarg ≠ 0)
  | none => false

/-- A return is well-formed for `main`: either an option value other than `'?'` and `':'`
with no error, or `'?'` with an unknown option or a missing argument diagnosed. -/
def RetOk (r : GetoptRet) : Prop :=
  (r.err = none ∧ r.c ≠ '?' ∧ r.c ≠ ':') ∨
  (r.c = '?' ∧ (r.err = some GetoptError.unknownOption
    ∨ r.err = some GetoptError.missingArgument))

/-! ## Arithmetic of the machine model -/

theorem toInt32_of_lt {u : Nat} (h : u < 2 ^ 31) : toInt32 u = (u : Int) := by
  unfold toInt32
  have h1 : u % 2 ^ 32 = u := Nat.mod_eq_of_lt (by omega)
  rw [h1, if_pos h]

theorem wrapInt_of_range {x : Int} (h1 : -2 ^ 31 ≤ x) (h2 : x < 2 ^ 31) : wrapInt x = x := by
  unfold wrapInt toInt32 toUInt32
  split_ifs <;> omega

theorem toUInt32_of_range {x : Int} (h1 : 0 ≤ x) (h2 : x < 2 ^ 32) : toUInt32 x = x.toNat := by
  unfold toUInt32
  rw [Int.emod_eq_of_lt h1 h2]

theorem testBit_top {k x : Nat} (h : x < 2 ^ (k + 1)) : x.testBit k = decide (2 ^ k ≤ x) := by
  by_cases hx : 2 ^ k ≤ x
  · obtain ⟨y, rfl⟩ := Nat.exists_eq_add_of_le hx
    have hy : y < 2 ^ k := by
      rw [Nat.pow_succ] at h
      omega
    rw [Nat.testBit_two_pow_add_eq, Nat.testBit_lt_two_pow hy]
    simp
  · rw [Nat.testBit_lt_two_pow (Nat.lt_of_not_le hx)]
    simp [hx]

theorem clzAux_eq (k x : Nat) (h : x < 2 ^ k) : clzAux k x = k - x.size := by
  induction k with
  | zero => simp [clzAux]
  | succ k ih =>
    rw [clzAux, testBit_top h]
    by_cases hx : 2 ^ k ≤ x
    · have h1 : k < x.size := Nat.lt_size.mpr hx
      have h2 : x.size ≤ k + 1 := Nat.size_le.mpr h
      simp [hx]
      omega
    · have hlt : x < 2 ^ k := Nat.lt_of_not_le hx
      have h2 : x.size ≤ k := Nat.size_le.mpr hlt
      simp [hx, ih hlt]
      omega

theorem builtin_clz_eq {x : Nat} (h : x < 2 ^ 32) : builtin_clz x = 32 - x.size :=
  clzAux_eq 32 x h

theorem atomic_mask_eq {nnodes : Nat} (h : nnodes < 2 ^ 30) :
    atomic_mask nnodes = 2 ^ nnodes.size - 1 := by
  have hs : nnodes.size ≤ 30 := Nat.size_le.mpr h
  have hclz : 32 - builtin_clz nnodes = nnodes.size := by
    rw [builtin_clz_eq (by omega)]
    omega
  have hp : (2 : Nat) ^ nnodes.size ≤ 2 ^ 30 := Nat.pow_le_pow_right (by decide) hs
  have hp0 : 0 < (2 : Nat) ^ nnodes.size := Nat.pos_pow_of_pos _ (by decide)
  have hshl : shl32 1 nnodes.size = ((2 ^ nnodes.size : Nat) : Int) := by
    unfold shl32
    have : toUInt32 1 = 1 := by decide
    rw [this, Nat.one_mul, toInt32_of_lt (by omega)]
  unfold atomic_mask
  rw [hclz, hshl, wrapInt_of_range (by omega) (by omega)]
  push_cast
  rfl

theorem atomic_mask_bounds {nnodes : Nat} (h1 : 1 ≤ nnodes) (h : nnodes < 2 ^ 30) :
    1 ≤ atomic_mask nnodes ∧ atomic_mask nnodes < 2 ^ 30 ∧ (nnodes : Int) ≤ atomic_mask nnodes := by
  have hs : nnodes.size ≤ 30 := Nat.size_le.mpr h
  have hs1 : 0 < nnodes.size := Nat.lt_size.mpr (by simpa using h1)
  have hp : (2 : Nat) ^ nnodes.size ≤ 2 ^ 30 := Nat.pow_le_pow_right (by decide) hs
  have hp1 : (2 : Nat) ^ 1 ≤ 2 ^ nnodes.size := Nat.pow_le_pow_right (by decide) hs1
  have hn : nnodes < 2 ^ nnodes.size := Nat.lt_size_self nnodes
  have hc : ((2 ^ nnodes.size : Nat) : Int) = 2 ^ nnodes.size := by push_cast; rfl
  rw [atomic_mask_eq h, ← hc]
  omega

theorem lastIncValue_eq {mask : Int} {nthreads : Nat} (h0 : 0 ≤ mask) (h1 : mask < 2 ^ 30)
    (ht : nthreads < 2 ^ 31) : lastIncValue mask nthreads = mask - nthreads + 1 := by
  have hm : ((toUInt32 mask : Nat) : Int) = mask := by
    rw [toUInt32_of_range h0 (by omega)]
    exact Int.toNat_of_nonneg h0
  unfold lastIncValue
  rw [hm]
  exact wrapInt_of_range (by omega) (by omega)

theorem incValue_last (nnodes nthreads : Nat) (h1 : 1 ≤ nnodes) (h : nnodes < 2 ^ 32) :
    incValue nnodes nthreads (nnodes - 1) = lastIncValue (atomic_mask nnodes) nthreads := by
  unfold incValue
  rw [if_pos]
  unfold toUInt32
  omega

theorem incValue_other {nnodes nthreads i : Nat} (hi : i + 1 < nnodes) (h : nnodes < 2 ^ 32) :
    incValue nnodes nthreads i = 1 := by
  unfold incValue
  rw [if_neg]
  unfold toUInt32
  omega

theorem increments_eq (nnodes nthreads : Nat) (h1 : 1 ≤ nnodes) (h : nnodes < 2 ^ 32) :
    increments nnodes nthreads
      = List.replicate (nnodes - 1) 1 ++ [lastIncValue (atomic_mask nnodes) nthreads] := by
  obtain ⟨m, rfl⟩ : ∃ m, nnodes = m + 1 := ⟨nnodes - 1, by omega⟩
  unfold increments CreateNumaSVMModel
  simp only [List.map_map, Nat.add_sub_cancel]
  rw [List.range_succ, List.map_append]
  congr 1
  · apply List.ext_getElem
    · simp
    · intro i h1 h2
      simp only [List.length_map, List.length_range] at h1
      simp [nodeModel, incValue_other (show i + 1 < m + 1 by omega) h]
  · simpa [nodeModel] using incValue_last (m + 1) nthreads (show 1 ≤ m + 1 by omega) h

/-! ## Arithmetic of the counter -/

theorem toUInt32_cast (x : Int) : ((toUInt32 x : Nat) : Int) = x % 2 ^ 32 := by
  unfold toUInt32
  exact Int.toNat_of_nonneg (Int.emod_nonneg _ (by decide))

theorem toInt32_emod (u : Nat) : toInt32 u % 2 ^ 32 = (u : Int) % 2 ^ 32 := by
  unfold toInt32
  split_ifs <;> omega

theorem wrapInt_emod (x : Int) : wrapInt x % 2 ^ 32 = x % 2 ^ 32 := by
  unfold wrapInt
  rw [toInt32_emod, toUInt32_cast]
  exact Int.emod_emod_of_dvd x (dvd_refl _)

theorem toUInt32_congr {x y : Int} (h : x % 2 ^ 32 = y % 2 ^ 32) : toUInt32 x = toUInt32 y := by
  unfold toUInt32
  rw [h]

theorem wrapInt_congr {x y : Int} (h : x % 2 ^ 32 = y % 2 ^ 32) : wrapInt x = wrapInt y := by
  unfold wrapInt
  rw [toUInt32_congr h]

theorem fetchAndAdd_right_comm (c a b : Int) :
    fetchAndAdd (fetchAndAdd c a) b = fetchAndAdd (fetchAndAdd c b) a := by
  unfold fetchAndAdd
  apply wrapInt_congr
  have h1 := wrapInt_emod (c + a)
  have h2 := wrapInt_emod (c + b)
  omega

theorem applyIncrements_perm {l₁ l₂ : List Int} (p : l₁.Perm l₂) (c : Int) :
    applyIncrements c l₁ = applyIncrements c l₂ := by
  unfold applyIncrements
  exact List.Perm.foldl_eq' p (fun x _ y _ z => fetchAndAdd_right_comm z x y) c

theorem applyIncrements_emod (c : Int) (incs : List Int) :
    applyIncrements c incs % 2 ^ 32 = (c + incs.sum) % 2 ^ 32 := by
  induction incs generalizing c with
  | nil => simp [applyIncrements]
  | cons a l ih =>
    have h := ih (fetchAndAdd c a)
    have h1 := wrapInt_emod (c + a)
    unfold applyIncrements at h ⊢
    unfold fetchAndAdd at h
    rw [List.foldl_cons, List.sum_cons]
    unfold fetchAndAdd
    omega

theorem applyIncrements_wrapped (d : Int) (l : List Int) :
    applyIncrements (wrapInt d) l = wrapInt (applyIncrements (wrapInt d) l) := by
  induction l using List.reverseRecOn with
  | nil =>
    simp only [applyIncrements, List.foldl_nil]
    exact wrapInt_congr (wrapInt_emod d).symm
  | append_singleton l b _ =>
    simp only [applyIncrements, List.foldl_append, List.foldl_cons, List.foldl_nil]
    unfold fetchAndAdd
    exact wrapInt_congr (wrapInt_emod _).symm

theorem applyIncrements_cons (c a : Int) (l : List Int) :
    applyIncrements c (a :: l) = wrapInt (c + (a :: l).sum) := by
  have h2 : applyIncrements c (a :: l) = applyIncrements (wrapInt (c + a)) l := rfl
  rw [h2, applyIncrements_wrapped]
  apply wrapInt_congr
  rw [← h2]
  exact applyIncrements_emod c (a :: l)

theorem underMask_congr {x y : Int} (m : Int) (h : x % 2 ^ 32 = y % 2 ^ 32) :
    underMask x m = underMask y m := by
  unfold underMask
  rw [toUInt32_congr h]

theorem underMask_pow (x : Int) {k : Nat} (hk : k ≤ 30) :
    underMask x (2 ^ k - 1) = x % 2 ^ k := by
  have hp : (2 : Nat) ^ k ≤ 2 ^ 30 := Nat.pow_le_pow_right (by decide) hk
  have hp0 : 0 < (2 : Nat) ^ k := Nat.pos_pow_of_pos _ (by decide)
  have hc : ((2 ^ k : Nat) : Int) = 2 ^ k := by push_cast; rfl
  have hm : toUInt32 (2 ^ k - 1) = 2 ^ k - 1 := by
    rw [toUInt32_of_range (by omega) (by omega), ← hc]
    omega
  have hlt : toUInt32 x % 2 ^ k < 2 ^ k := Nat.mod_lt _ hp0
  unfold underMask
  rw [hm, Nat.and_pow_two_sub_one_eq_mod, toInt32_of_lt (by omega)]
  push_cast
  rw [toUInt32_cast]
  exact Int.emod_emod_of_dvd x (pow_dvd_pow 2 (by omega))

theorem underMask_atomic_mask (x : Int) {nnodes : Nat} (h : nnodes < 2 ^ 30) :
    underMask x (atomic_mask nnodes) = x % (atomic_mask nnodes + 1) := by
  have hs : nnodes.size ≤ 30 := Nat.size_le.mpr h
  rw [atomic_mask_eq h, underMask_pow x hs]
  simp

theorem sum_replicate_one (n : Nat) : (List.replicate n (1 : Int)).sum = n := by
  induction n with
  | zero => rfl
  | succ n ih =>
    rw [List.replicate_succ, List.sum_cons, ih]
    push_cast
    omega

theorem increments_sum {nnodes nthreads : Nat} (h1 : 1 ≤ nnodes) (h2 : nnodes < 2 ^ 30)
    (h4 : nthreads < 2 ^ 31) :
    (increments nnodes nthreads).sum = atomic_mask nnodes + nnodes - nthreads := by
  obtain ⟨hm1, hm2, _⟩ := atomic_mask_bounds h1 h2
  rw [increments_eq nnodes nthreads h1 (by omega), List.sum_append, sum_replicate_one,
    lastIncValue_eq (by omega) hm2 h4]
  simp only [List.sum_cons, List.sum_nil]
  omega

theorem roundIncrements_sum {nnodes nthreads : Nat} (h1 : 1 ≤ nnodes) (h2 : nnodes < 2 ^ 30)
    (h3 : 1 ≤ nthreads) (h4 : nthreads < 2 ^ 31) :
    (roundIncrements nnodes nthreads).sum = atomic_mask nnodes := by
  obtain ⟨hm1, hm2, _⟩ := atomic_mask_bounds h1 h2
  unfold roundIncrements
  rw [List.sum_append, sum_replicate_one, lastIncValue_eq (by omega) hm2 h4]
  simp only [List.sum_cons, List.sum_nil]
  omega

/-! ## The loader loop -/

section Loader

variable {V : Type}

theorem loadFold_succ (st0 : LoadState V) (n : Nat) :
    (List.range (n + 1)).foldl loadIter st0 = loadIter ((List.range n).foldl loadIter st0) n := by
  rw [List.range_succ, List.foldl_append]
  rfl

theorem loadFold_records (st0 : LoadState V) (n : Nat) :
    ((List.range n).foldl loadIter st0).scan.records = st0.scan.records := by
  induction n with
  | zero => rfl
  | succ n ih =>
    rw [loadFold_succ]
    simpa [loadIter, LoadSVMExamples, Scan.Reset] using ih

theorem loadFold_trace (st0 : LoadState V) (n : Nat) :
    ((List.range n).foldl loadIter st0).trace
      = st0.trace ++ (List.range n).flatMap passCalls := by
  induction n with
  | zero => simp
  | succ n ih =>
    rw [loadFold_succ, List.range_succ, List.flatMap_append]
    simp [loadIter, ih]

theorem loadFold_length (st0 : LoadState V) (n : Nat) :
    ((List.range n).foldl loadIter st0).nodeex.length = st0.nodeex.length := by
  induction n with
  | zero => rfl
  | succ n ih =>
    rw [loadFold_succ]
    simpa [loadIter] using ih

theorem loadFold_nodeex (st0 : LoadState V) (n j : Nat) :
    ((List.range n).foldl loadIter st0).nodeex[j]?
      = if j < n ∧ j < st0.nodeex.length then some st0.scan.records else st0.nodeex[j]? := by
  induction n with
  | zero => simp
  | succ n ih =>
    rw [loadFold_succ]
    have hrec := loadFold_records st0 n
    have hlen := loadFold_length st0 n
    simp only [loadIter, LoadSVMExamples, Scan.Reset, List.drop_zero]
    rw [List.getElem?_set, hrec, hlen, ih]
    by_cases hj : n = j
    · subst hj
      by_cases hL : n < st0.nodeex.length
      · simp [hL]
      · have hnone : st0.nodeex[n]? = none := List.getElem?_eq_none (by omega)
        simp [hL, hnone]
    · rw [if_neg hj]
      by_cases hL : j < st0.nodeex.length
      · by_cases hn : j < n
        · have : j < n + 1 := by omega
          simp [hL, hn, this]
        · have : ¬ j < n + 1 := by omega
          simp [hn, this]
      · simp [hL]

theorem loadFold_last (st0 : LoadState V) (n : Nat) :
    ((List.range (n + 1)).foldl loadIter st0).nfeats
        = (LoadSVMExamples ((List.range n).foldl loadIter st0).scan.Reset).2.2 ∧
    ((List.range (n + 1)).foldl loadIter st0).nfeats = maxFeatureIndex st0.scan.records + 1 ∧
    ((List.range (n + 1)).foldl loadIter st0).scan
        = { records := st0.scan.records, pos := st0.scan.records.length } := by
  rw [loadFold_succ]
  have hrec := loadFold_records st0 n
  refine ⟨rfl, ?_, ?_⟩
  · simp [loadIter, LoadSVMExamples, Scan.Reset, hrec]
  · simp [loadIter, LoadSVMExamples, Scan.Reset, hrec]

theorem passesLocal_passCalls (a : Affinity) (fresh : Bool) (i : Nat) (rest : List Action) :
    passesLocal a fresh (passCalls i ++ rest)
      = passesLocal { run := some (i : Int), preferred := some (i : Int) } false rest := by
  simp [passCalls, passesLocal]

theorem passesLocal_flatMap (l : List Nat) (tail : List Action)
    (htail : ∀ a fresh, passesLocal a fresh tail = true) (a : Affinity) (fresh : Bool) :
    passesLocal a fresh (l.flatMap passCalls ++ tail) = true := by
  induction l generalizing a fresh with
  | nil => simpa using htail a fresh
  | cons i l ih =>
    rw [List.flatMap_cons, List.append_assoc, passesLocal_passCalls]
    exact ih _ _

theorem passOrder_flatMap (l : List Nat) (tail : List Action) :
    passOrder (l.flatMap passCalls ++ tail) = l ++ passOrder tail := by
  induction l with
  | nil => simp
  | cons i l ih =>
    rw [List.flatMap_cons, List.append_assoc]
    simp [passCalls, passOrder, ih]

theorem after_append (a : Affinity) (t₁ t₂ : List Action) :
    a.after (t₁ ++ t₂) = (a.after t₁).after t₂ := by
  simp [Affinity.after, List.foldl_append]

theorem mem_le_foldl_max (l : List Nat) (b x : Nat) (h : x ≤ b ∨ x ∈ l) : x ≤ l.foldl max b := by
  induction l generalizing b with
  | nil =>
    rcases h with h | h
    · simpa using h
    · simp at h
  | cons y l ih =>
    rw [List.foldl_cons]
    apply ih
    rcases h with h | h
    · exact Or.inl (le_trans h (le_max_left b y))
    · rcases List.mem_cons.mp h with h | h
      · subst h
        exact Or.inl (le_max_right b x)
      · exact Or.inr h

theorem foldl_max_mem (l : List Nat) (b : Nat) : l.foldl max b = b ∨ l.foldl max b ∈ l := by
  induction l generalizing b with
  | nil => simp
  | cons y l ih =>
    rw [List.foldl_cons]
    rcases ih (max b y) with h | h
    · rw [h]
      rcases max_choice b y with hm | hm
      · exact Or.inl hm
      · exact Or.inr (by rw [hm]; exact List.mem_cons_self _ _)
    · exact Or.inr (List.mem_cons_of_mem _ h)

end Loader

/-! ## Claims about `CreateNumaSVMModel` and the counter -/

/-- C1: for `1 ≤ nnodes < 2^30` every replica written by `CreateNumaSVMModel` carries the
mask `(1 << (32 - clz nnodes)) - 1` (computed without overflow), and that mask is the
smallest number of the form `2^k - 1` that is at least `nnodes`: it has the form, it is
`≥ nnodes`, and every smaller number of the form is `< nnodes`. -/
theorem mask_is_least_pow_two_sub_one (ptr nfeats nnodes nthreads : Nat)
    (h1 : 1 ≤ nnodes) (h2 : nnodes < 2 ^ 30) :
    (CreateNumaSVMModel ptr nfeats nnodes nthreads).1.length = nnodes ∧
    (∀ r ∈ (CreateNumaSVMModel ptr nfeats nnodes nthreads).1,
      r.atomic_mask = atomic_mask nnodes) ∧
    atomic_mask nnodes = 2 ^ (32 - builtin_clz nnodes) - 1 ∧
    (∃ k : Nat, atomic_mask nnodes = 2 ^ k - 1) ∧
    (nnodes : Int) ≤ atomic_mask nnodes ∧
    ∀ j : Nat, (2 : Int) ^ j - 1 < atomic_mask nnodes → (2 : Int) ^ j - 1 < nnodes := by
  have hclz : 32 - builtin_clz nnodes = nnodes.size := by
    have hs : nnodes.size ≤ 30 := Nat.size_le.mpr h2
    rw [builtin_clz_eq (by omega)]
    omega
  refine ⟨by simp [CreateNumaSVMModel], ?_, ?_, ⟨nnodes.size, atomic_mask_eq h2⟩,
    (atomic_mask_bounds h1 h2).2.2, ?_⟩
  · intro r hr
    simp only [CreateNumaSVMModel, List.mem_map] at hr
    obtain ⟨i, _, rfl⟩ := hr
    rfl
  · rw [hclz]
    exact atomic_mask_eq h2
  · intro j hj
    rw [atomic_mask_eq h2] at hj
    have hlt : (2 : Int) ^ j < 2 ^ nnodes.size := by omega
    have hjs : j < nnodes.size := by
      by_contra hcon
      have : (2 : Int) ^ nnodes.size ≤ 2 ^ j := pow_le_pow_right₀ (by decide) (by omega)
      omega
    have hle : 2 ^ j ≤ nnodes := Nat.lt_size.mp hjs
    have hc : ((2 ^ j : Nat) : Int) = 2 ^ j := by push_cast; rfl
    omega

theorem mask_is_least_pow_two_sub_one_witness :
    (CreateNumaSVMModel 0 4 5 8).1.length = 5 ∧
    (∀ r ∈ (CreateNumaSVMModel 0 4 5 8).1, r.atomic_mask = atomic_mask 5) ∧
    atomic_mask 5 = 2 ^ (32 - builtin_clz 5) - 1 ∧
    (∃ k : Nat, atomic_mask 5 = 2 ^ k - 1) ∧
    ((5 : Nat) : Int) ≤ atomic_mask 5 ∧
    ∀ j : Nat, (2 : Int) ^ j - 1 < atomic_mask 5 → (2 : Int) ^ j - 1 < (5 : Nat) :=
  mask_is_least_pow_two_sub_one 0 4 5 8 (by decide) (by decide)

/-- C2 (as stated) fails: with two nodes and two threads the mask is `3`, the stored
increments are `1` and `2`, their sum is `3` and not the modulus `4`, and a counter
started at `0` reads `3` under the mask after both nodes have added their increment. -/
theorem increments_sum_ne_modulus :
    increments 2 2 = [1, 2] ∧ atomic_mask 2 = 3 ∧
    (increments 2 2).sum ≠ atomic_mask 2 + 1 ∧
    underMask (applyIncrements 0 (increments 2 2)) (atomic_mask 2) ≠ underMask 0 (atomic_mask 2) := by
  decide

/-- C2 (amended): for `1 ≤ nnodes < 2^30` and `nthreads < 2^31` the increments stored in
the `nnodes` replicas sum to `mask + nnodes - nthreads`; that is the modulus `mask + 1`
exactly when `nnodes = nthreads + 1`.  After every node has added its increment once, a
counter started at `c` reads `(c + nnodes - nthreads - 1) mod (mask + 1)` under the mask. -/
theorem increments_sum_eq (nnodes nthreads : Nat) (c : Int)
    (h1 : 1 ≤ nnodes) (h2 : nnodes < 2 ^ 30) (h4 : nthreads < 2 ^ 31) :
    (increments nnodes nthreads).length = nnodes ∧
    (increments nnodes nthreads).sum = atomic_mask nnodes + nnodes - nthreads ∧
    ((increments nnodes nthreads).sum = atomic_mask nnodes + 1 ↔ nnodes = nthreads + 1) ∧
    underMask (applyIncrements c (increments nnodes nthreads)) (atomic_mask nnodes)
      = (c + nnodes - nthreads - 1) % (atomic_mask nnodes + 1) := by
  have hsum := increments_sum h1 h2 h4
  refine ⟨by simp [increments, CreateNumaSVMModel], hsum, by omega, ?_⟩
  rw [underMask_congr _ (applyIncrements_emod c _), hsum, underMask_atomic_mask _ h2]
  have hrw : c + (atomic_mask nnodes + nnodes - nthreads)
      = (c + nnodes - nthreads - 1) + (atomic_mask nnodes + 1) := by omega
  rw [hrw, Int.add_emod_self]

theorem increments_sum_eq_witness :
    (increments 3 2).length = 3 ∧
    (increments 3 2).sum = atomic_mask 3 + (3 : Nat) - (2 : Nat) ∧
    ((increments 3 2).sum = atomic_mask 3 + 1 ↔ 3 = 2 + 1) ∧
    underMask (applyIncrements 6 (increments 3 2)) (atomic_mask 3)
      = (6 + (3 : Nat) - (2 : Nat) - 1) % (atomic_mask 3 + 1) :=
  increments_sum_eq 3 2 6 (by decide) (by decide) (by decide)

/-- C3 (as stated) fails: with three nodes and three threads the mask is `3`, one round is
three increments of `1`, which sum to `3` and not to `4`; from `5` the counter ends at `8`,
which reads `0` under the mask while the start value `5` reads `1`. -/
theorem round_does_not_return :
    roundIncrements 3 3 = [1, 1, 1] ∧ atomic_mask 3 = 3 ∧
    (roundIncrements 3 3).sum ≠ atomic_mask 3 + 1 ∧
    applyIncrements 5 (roundIncrements 3 3) = 8 ∧
    underMask (applyIncrements 5 (roundIncrements 3 3)) (atomic_mask 3) = 0 ∧
    underMask 5 (atomic_mask 3) = 1 := by
  decide

/-- C3 (amended): for `1 ≤ nnodes < 2^30`, `1 ≤ nthreads < 2^31` and any start value `c`,
the `nthreads` increments of one round (`nthreads - 1` ones and the last node's amount)
sum to the mask `M`, not to `M + 1`.  Applied in any order they give the same final value,
`c + M` wrapped to 32 bits; under the mask that value lies in `[0, M]` and equals
`(c + M) mod (M + 1) = (c - 1) mod (M + 1)`, which always differs from `c` under the mask. -/
theorem round_any_order (nnodes nthreads : Nat) (c : Int) (l : List Int)
    (h1 : 1 ≤ nnodes) (h2 : nnodes < 2 ^ 30) (h3 : 1 ≤ nthreads) (h4 : nthreads < 2 ^ 31)
    (hl : l.Perm (roundIncrements nnodes nthreads)) :
    l.length = nthreads ∧
    l.sum = atomic_mask nnodes ∧
    applyIncrements c l = applyIncrements c (roundIncrements nnodes nthreads) ∧
    applyIncrements c l = wrapInt (c + atomic_mask nnodes) ∧
    0 ≤ underMask (applyIncrements c l) (atomic_mask nnodes) ∧
    underMask (applyIncrements c l) (atomic_mask nnodes) ≤ atomic_mask nnodes ∧
    underMask (applyIncrements c l) (atomic_mask nnodes)
      = (c + atomic_mask nnodes) % (atomic_mask nnodes + 1) ∧
    underMask (applyIncrements c l) (atomic_mask nnodes)
      = (c - 1) % (atomic_mask nnodes + 1) ∧
    underMask (applyIncrements c l) (atomic_mask nnodes) ≠ underMask c (atomic_mask nnodes) := by
  obtain ⟨hm1, hm2, _⟩ := atomic_mask_bounds h1 h2
  have hsum : l.sum = atomic_mask nnodes := by
    rw [hl.sum_eq, roundIncrements_sum h1 h2 h3 h4]
  have hlen : l.length = nthreads := by
    rw [hl.length_eq]
    simp only [roundIncrements, List.length_append, List.length_replicate, List.length_singleton]
    omega
  have hfin : applyIncrements c l = wrapInt (c + atomic_mask nnodes) := by
    cases l with
    | nil => simp at hlen; omega
    | cons a t => rw [applyIncrements_cons, hsum]
  have hval : underMask (applyIncrements c l) (atomic_mask nnodes)
      = (c + atomic_mask nnodes) % (atomic_mask nnodes + 1) := by
    rw [hfin, underMask_congr _ (wrapInt_emod _), underMask_atomic_mask _ h2]
  have hpos : (0 : Int) < atomic_mask nnodes + 1 := by omega
  have hval2 : (c + atomic_mask nnodes) % (atomic_mask nnodes + 1)
      = (c - 1) % (atomic_mask nnodes + 1) := by
    have hrw : c + atomic_mask nnodes = (c - 1) + (atomic_mask nnodes + 1) := by omega
    rw [hrw, Int.add_emod_self]
  have hnn := Int.emod_nonneg (c + atomic_mask nnodes) (ne_of_gt hpos)
  have hlt := Int.emod_lt_of_pos (c + atomic_mask nnodes) hpos
  refine ⟨hlen, hsum, applyIncrements_perm hl c, hfin, ?_, ?_, hval, ?_, ?_⟩
  · rw [hval]; exact hnn
  · rw [hval]; omega
  · rw [hval, hval2]
  · rw [hval, hval2, underMask_atomic_mask _ h2]
    intro heq
    have hd : (atomic_mask nnodes + 1) ∣ (c - (c - 1)) := Int.ModEq.dvd heq
    have h1c : c - (c - 1) = 1 := by omega
    rw [h1c] at hd
    have := Int.le_of_dvd (by decide) hd
    omega

theorem round_any_order_witness :
    [1, 4, 1, 1].length = 4 ∧
    [1, 4, 1, 1].sum = atomic_mask 5 ∧
    applyIncrements 9 [1, 4, 1, 1] = applyIncrements 9 (roundIncrements 5 4) ∧
    applyIncrements 9 [1, 4, 1, 1] = wrapInt (9 + atomic_mask 5) ∧
    0 ≤ underMask (applyIncrements 9 [1, 4, 1, 1]) (atomic_mask 5) ∧
    underMask (applyIncrements 9 [1, 4, 1, 1]) (atomic_mask 5) ≤ atomic_mask 5 ∧
    underMask (applyIncrements 9 [1, 4, 1, 1]) (atomic_mask 5)
      = (9 + atomic_mask 5) % (atomic_mask 5 + 1) ∧
    underMask (applyIncrements 9 [1, 4, 1, 1]) (atomic_mask 5)
      = (9 - 1) % (atomic_mask 5 + 1) ∧
    underMask (applyIncrements 9 [1, 4, 1, 1]) (atomic_mask 5) ≠ underMask 9 (atomic_mask 5) :=
  round_any_order 5 4 9 [1, 4, 1, 1] (by decide) (by decide) (by decide) (by decide)
    (by decide)

/-- C9: for `1 ≤ nnodes < 2^30` and `1 ≤ nthreads < 2^31` the increment stored for the last
node is `mask - nthreads + 1` as a signed `int`; it is at least `1` exactly when
`nthreads ≤ mask`, and then at most `mask`; it is `0` for `nthreads = mask + 1` and negative
for `nthreads > mask + 1`.  With one node the only stored increment is `2 - nthreads`. -/
theorem last_increment_sign (nnodes nthreads : Nat)
    (h1 : 1 ≤ nnodes) (h2 : nnodes < 2 ^ 30) (h3 : 1 ≤ nthreads) (h4 : nthreads < 2 ^ 31) :
    (increments nnodes nthreads).getLast? = some (incValue nnodes nthreads (nnodes - 1)) ∧
    incValue nnodes nthreads (nnodes - 1) = atomic_mask nnodes - nthreads + 1 ∧
    (1 ≤ incValue nnodes nthreads (nnodes - 1) ↔ (nthreads : Int) ≤ atomic_mask nnodes) ∧
    ((nthreads : Int) ≤ atomic_mask nnodes →
      incValue nnodes nthreads (nnodes - 1) ≤ atomic_mask nnodes) ∧
    ((nthreads : Int) = atomic_mask nnodes + 1 → incValue nnodes nthreads (nnodes - 1) = 0) ∧
    ((nthreads : Int) > atomic_mask nnodes + 1 → incValue nnodes nthreads (nnodes - 1) < 0) ∧
    (nnodes = 1 → increments nnodes nthreads = [2 - (nthreads : Int)]) := by
  obtain ⟨hm1, hm2, _⟩ := atomic_mask_bounds h1 h2
  have hv : incValue nnodes nthreads (nnodes - 1) = atomic_mask nnodes - nthreads + 1 := by
    rw [incValue_last nnodes nthreads h1 (by omega), lastIncValue_eq (by omega) hm2 h4]
  have hinc := increments_eq nnodes nthreads h1 (show nnodes < 2 ^ 32 by omega)
  refine ⟨?_, hv, by omega, by omega, by omega, by omega, ?_⟩
  · rw [hinc, incValue_last nnodes nthreads h1 (by omega)]
    simp
  · intro hone
    subst hone
    rw [hinc, lastIncValue_eq (by omega) hm2 h4]
    have : atomic_mask 1 = 1 := by decide
    rw [this]
    simp only [Nat.sub_self, List.replicate_zero, List.nil_append, List.cons.injEq, and_true]
    omega

theorem last_increment_sign_witness :
    (increments 4 9).getLast? = some (incValue 4 9 (4 - 1)) ∧
    incValue 4 9 (4 - 1) = atomic_mask 4 - (9 : Nat) + 1 ∧
    (1 ≤ incValue 4 9 (4 - 1) ↔ ((9 : Nat) : Int) ≤ atomic_mask 4) ∧
    (((9 : Nat) : Int) ≤ atomic_mask 4 → incValue 4 9 (4 - 1) ≤ atomic_mask 4) ∧
    (((9 : Nat) : Int) = atomic_mask 4 + 1 → incValue 4 9 (4 - 1) = 0) ∧
    (((9 : Nat) : Int) > atomic_mask 4 + 1 → incValue 4 9 (4 - 1) < 0) ∧
    (4 = 1 → increments 4 9 = [2 - ((9 : Nat) : Int)]) :=
  last_increment_sign 4 9 (by decide) (by decide) (by decide) (by decide)

/-! ## Claims about `NumaLoadSVMExamples` -/

/-- C4: for a source holding `r` records and an array of at least `nnodes` partitions,
`NumaLoadSVMExamples` leaves each of the first `nnodes` partitions holding all records of the
source (whatever the scanner position was on entry), so their example counts add up to
`nnodes * r`; partitions beyond `nnodes` are untouched.  The reset before every pass is what
makes this work: a further pass on the scanner as the loop leaves it reads nothing. -/
theorem load_fills_every_partition {V : Type} (scan : Scan V)
    (nodeex : List (List (SVMExample V))) (nnodes : Nat) (h : nnodes ≤ nodeex.length) :
    (NumaLoadSVMExamples scan nodeex nnodes).2.nodeex.length = nodeex.length ∧
    (∀ i, i < nnodes → (NumaLoadSVMExamples scan nodeex nnodes).2.nodeex[i]? = some scan.records) ∧
    (((NumaLoadSVMExamples scan nodeex nnodes).2.nodeex.take nnodes).map List.length).sum
      = nnodes * scan.records.length ∧
    (∀ i, nnodes ≤ i → (NumaLoadSVMExamples scan nodeex nnodes).2.nodeex[i]? = nodeex[i]?) ∧
    (1 ≤ nnodes → (LoadSVMExamples (NumaLoadSVMExamples scan nodeex nnodes).2.scan).2.1 = []) := by
  have hget : ∀ j, (NumaLoadSVMExamples scan nodeex nnodes).2.nodeex[j]?
      = if j < nnodes ∧ j < nodeex.length then some scan.records else nodeex[j]? := by
    intro j
    exact loadFold_nodeex { scan := scan, nodeex := nodeex, nfeats := 0, trace := [] } nnodes j
  have htake : (NumaLoadSVMExamples scan nodeex nnodes).2.nodeex.take nnodes
      = List.replicate nnodes scan.records := by
    apply List.ext_getElem?
    intro j
    rw [List.getElem?_take, List.getElem?_replicate, hget]
    by_cases hj : j < nnodes
    · have : j < nodeex.length := by omega
      simp [hj, this]
    · simp [hj]
  refine ⟨loadFold_length _ nnodes, ?_, ?_, ?_, ?_⟩
  · intro i hi
    rw [hget, if_pos ⟨hi, by omega⟩]
  · rw [htake, List.map_replicate, List.sum_replicate, smul_eq_mul]
  · intro i hi
    rw [hget, if_neg (by omega)]
  · intro h1
    obtain ⟨m, rfl⟩ : ∃ m, nnodes = m + 1 := ⟨nnodes - 1, by omega⟩
    have hs := (loadFold_last { scan := scan, nodeex := nodeex, nfeats := 0, trace := [] } m).2.2
    simp only [NumaLoadSVMExamples, LoadSVMExamples]
    rw [hs]
    simp

theorem load_fills_every_partition_witness :
    (NumaLoadSVMExamples (V := Int)
      { records := sampleRecords, pos := 1 } [[], [], []] 3).2.nodeex.length = 3 ∧
    (∀ i, i < 3 → (NumaLoadSVMExamples (V := Int)
      { records := sampleRecords, pos := 1 } [[], [], []] 3).2.nodeex[i]?
        = some sampleRecords) ∧
    (((NumaLoadSVMExamples (V := Int)
      { records := sampleRecords, pos := 1 } [[], [], []] 3).2.nodeex.take 3).map List.length).sum = 3 * 2 ∧
    (∀ i, 3 ≤ i → (NumaLoadSVMExamples (V := Int)
      { records := sampleRecords, pos := 1 } [[], [], []] 3).2.nodeex[i]? = ([[], [], []] : List (List (SVMExample Int)))[i]?) ∧
    (1 ≤ 3 → (LoadSVMExamples (NumaLoadSVMExamples (V := Int)
      { records := sampleRecords, pos := 1 } [[], [], []] 3).2.scan).2.1 = []) :=
  load_fills_every_partition
    { records := sampleRecords, pos := 1 } [[], [], []] 3 (by decide)

/-- C5: for `nnodes ≥ 1` the value `NumaLoadSVMExamples` returns is one plus the largest
feature index occurring in the source, whatever `nnodes` and the scanner position on entry:
it is what a single `LoadSVMExamples` pass over the freshly reset source returns, and it is
the value of the last pass.  Every feature index of the source is below it and, if the source
has a feature at all, one of them is exactly one less.  With `nnodes = 0` the result is `0`. -/
theorem load_returns_dimension {V : Type} (scan : Scan V)
    (nodeex : List (List (SVMExample V))) (nnodes : Nat) (h : 1 ≤ nnodes) :
    (NumaLoadSVMExamples scan nodeex nnodes).1 = maxFeatureIndex scan.records + 1 ∧
    (NumaLoadSVMExamples scan nodeex nnodes).1 = (LoadSVMExamples scan.Reset).2.2 ∧
    (NumaLoadSVMExamples scan nodeex nnodes).1
      = (LoadSVMExamples (NumaLoadSVMExamples scan nodeex (nnodes - 1)).2.scan.Reset).2.2 ∧
    (∀ e ∈ scan.records, ∀ f ∈ e.vector, f.1 < (NumaLoadSVMExamples scan nodeex nnodes).1) ∧
    ((∃ e ∈ scan.records, e.vector ≠ []) →
      ∃ e ∈ scan.records, ∃ f ∈ e.vector, f.1 + 1 = (NumaLoadSVMExamples scan nodeex nnodes).1) ∧
    (NumaLoadSVMExamples scan nodeex 0).1 = 0 := by
  obtain ⟨m, rfl⟩ : ∃ m, nnodes = m + 1 := ⟨nnodes - 1, by omega⟩
  obtain ⟨hlast, hval, _⟩ :=
    loadFold_last { scan := scan, nodeex := nodeex, nfeats := 0, trace := [] } m
  have hres : (NumaLoadSVMExamples scan nodeex (m + 1)).1 = maxFeatureIndex scan.records + 1 := hval
  refine ⟨hres, ?_, ?_, ?_, ?_, rfl⟩
  · rw [hres]
    simp [LoadSVMExamples, Scan.Reset]
  · exact hlast
  · intro e he f hf
    rw [hres]
    have : f.1 ≤ maxFeatureIndex scan.records := by
      unfold maxFeatureIndex
      apply mem_le_foldl_max
      right
      exact List.mem_flatMap.mpr ⟨e, he, List.mem_map.mpr ⟨f, hf, rfl⟩⟩
    omega
  · rintro ⟨e, he, hne⟩
    rw [hres]
    have hmem : ∃ x, x ∈ scan.records.flatMap (fun e => e.vector.map Prod.fst) := by
      obtain ⟨f, hf⟩ := List.exists_mem_of_ne_nil _ hne
      exact ⟨f.1, List.mem_flatMap.mpr ⟨e, he, List.mem_map.mpr ⟨f, hf, rfl⟩⟩⟩
    have hin : maxFeatureIndex scan.records
        ∈ scan.records.flatMap (fun e => e.vector.map Prod.fst) := by
      unfold maxFeatureIndex
      rcases foldl_max_mem (scan.records.flatMap (fun e => e.vector.map Prod.fst)) 0 with h0 | h0
      · obtain ⟨x, hx⟩ := hmem
        have hle := mem_le_foldl_max _ 0 x (Or.inr hx)
        have hx0 : x = 0 := by omega
        rw [h0, ← hx0]
        exact hx
      · exact h0
    obtain ⟨e', he', hf'⟩ := List.mem_flatMap.mp hin
    obtain ⟨f', hf'mem, hf'eq⟩ := List.mem_map.mp hf'
    exact ⟨e', he', f', hf'mem, by rw [hf'eq]⟩

theorem load_returns_dimension_witness :
    (NumaLoadSVMExamples (V := Int)
      { records := sampleRecords, pos := 2 } [[], []] 2).1 = 4 :=
  (load_returns_dimension (V := Int)
    { records := sampleRecords, pos := 2 } [[], []] 2 (by decide)).1

/-- C7: the calls `NumaLoadSVMExamples` makes are, for `i = 0, 1, ..., nnodes-1` in this
order, a scanner reset, `numa_run_on_node(i)`, `numa_set_preferred(i)` and the load pass
for node `i`, followed by `numa_run_on_node(-1)` and `numa_set_preferred(-1)`.  Hence every
load pass runs with both affinities set to its own node and a freshly reset scanner, the
passes come in node order, and on return both affinities are `-1`. -/
theorem load_passes_are_local {V : Type} (scan : Scan V)
    (nodeex : List (List (SVMExample V))) (nnodes : Nat) (a : Affinity) (fresh : Bool) :
    (NumaLoadSVMExamples scan nodeex nnodes).2.trace
      = (List.range nnodes).flatMap passCalls
          ++ [Action.numa_run_on_node (-1), Action.numa_set_preferred (-1)] ∧
    passesLocal a fresh (NumaLoadSVMExamples scan nodeex nnodes).2.trace = true ∧
    passOrder (NumaLoadSVMExamples scan nodeex nnodes).2.trace = List.range nnodes ∧
    a.after (NumaLoadSVMExamples scan nodeex nnodes).2.trace
      = { run := some (-1), preferred := some (-1) } := by
  have htr : (NumaLoadSVMExamples scan nodeex nnodes).2.trace
      = (List.range nnodes).flatMap passCalls
          ++ [Action.numa_run_on_node (-1), Action.numa_set_preferred (-1)] := by
    simp only [NumaLoadSVMExamples]
    rw [loadFold_trace]
    simp
  rw [htr]
  refine ⟨rfl, ?_, ?_, ?_⟩
  · apply passesLocal_flatMap
    intro a fresh
    simp [passesLocal]
  · rw [passOrder_flatMap]
    simp [passOrder]
  · rw [after_append]
    simp [Affinity.after, Affinity.step]

/-! ## The option loop -/

section Options

variable {F : Type}

theorem optionStep_eq_none (lc : Libc F) (cfg : Config F) (r : GetoptRet) :
    optionStep lc cfg r = none ↔ (r.c = ':' ∨ r.c = '?') := by
  unfold optionStep
  constructor
  · intro h
    split_ifs at h with h1 h2 h3 h4 h5 h6 h7 h8
    exact h8
  · intro h
    have hne : r.c ≠ 'v' ∧ r.c ≠ 'm' ∧ r.c ≠ 'u' ∧ r.c ≠ 'e' ∧ r.c ≠ 'i' ∧ r.c ≠ 'd'
        ∧ r.c ≠ 'r' := by
      rcases h with h | h <;> rw [h] <;> decide
    obtain ⟨h1, h2, h3, h4, h5, h6, h7⟩ := hne
    simp [h1, h2, h3, h4, h5, h6, h7, h]

theorem parseOptions_eq_none (lc : Libc F) (cfg : Config F) (rets : List GetoptRet) :
    parseOptions lc cfg rets = none ↔ ∃ r ∈ rets, r.c = ':' ∨ r.c = '?' := by
  induction rets generalizing cfg with
  | nil => simp [parseOptions]
  | cons r rs ih =>
    unfold parseOptions
    cases hstep : optionStep lc cfg r with
    | none =>
      have := (optionStep_eq_none lc cfg r).mp hstep
      simp [this]
    | some cfg1 =>
      have hnot : ¬ (r.c = ':' ∨ r.c = '?') := by
        intro hc
        rw [(optionStep_eq_none lc cfg r).mpr hc] at hstep
        cases hstep
      simp only [ih cfg1, List.mem_cons, exists_eq_or_imp]
      constructor
      · intro h
        exact Or.inr h
      · rintro (h | h)
        · exact absurd h hnot
        · exact h

theorem optionStep_seed (lc : Libc F) (cfg : Config F) (r : GetoptRet) (h : r.c = 's') :
    optionStep lc cfg r = some cfg := by
  unfold optionStep
  rw [h]
  simp

theorem parseOptions_filter_seed (lc : Libc F) (cfg : Config F) (rets : List GetoptRet) :
    parseOptions lc cfg rets
      = parseOptions lc cfg (rets.filter (fun r => decide (r.c ≠ 's'))) := by
  induction rets generalizing cfg with
  | nil => rfl
  | cons r rs ih =>
    by_cases hs : r.c = 's'
    · have hf : (r :: rs).filter (fun r => decide (r.c ≠ 's'))
          = rs.filter (fun r => decide (r.c ≠ 's')) := by
        simp [List.filter_cons, hs]
      rw [hf, ← ih cfg]
      simp [parseOptions, optionStep_seed lc cfg r hs]
    · have hf : (r :: rs).filter (fun r => decide (r.c ≠ 's'))
          = r :: rs.filter (fun r => decide (r.c ≠ 's')) := by
        simp [List.filter_cons, hs]
      rw [hf]
      unfold parseOptions
      cases optionStep lc cfg r with
      | none => rfl
      | some cfg1 => exact ih cfg1

theorem getoptScan_length (opts : List extended_option) (pending : Option extended_option)
    (args : List CString) :
    (getoptScan opts pending args).optElems.length + (getoptScan opts pending args).nonOpts.length
      = args.length := by
  induction args generalizing pending with
  | nil => cases pending <;> simp [getoptScan]
  | cons arg rest ih =>
    cases pending with
    | some o =>
      have := ih none
      simp only [getoptScan, GetoptRun.consume, List.length_cons]
      omega
    | none =>
      have h0 := ih none
      unfold getoptScan
      cases hc : classify opts arg with
      | endOfOptions => simp; omega
      | longPending o =>
        have := ih (some o)
        simp only [GetoptRun.consume, List.length_cons]
        omega
      | _ =>
        simp only [GetoptRun.consume, List.length_cons]
        omega

/-- The outcome of `main` in terms of the returns and the non-options of the run. -/
theorem main_eq (lc : Libc F) (argv : List CString) :
    main lc argv =
      match parseOptions lc (Config.initial lc) (getopt_long argv long_options).rets with
      | none => MainOutcome.usageExit usage_str (-1)
      | some cfg =>
        if (getopt_long argv long_options).nonOpts.length = 2 then
          MainOutcome.loading cfg ((getopt_long argv long_options).nonOpts.getD 0 [])
            ((getopt_long argv long_options).nonOpts.getD 1 []) (trainScanner cfg)
            (testScanner cfg)
        else MainOutcome.usageExit usage_str (-1) := by
  unfold main
  simp only []
  generalize parseOptions lc (Config.initial lc) (getopt_long argv long_options).rets = po
  cases po with
  | none => rfl
  | some cfg =>
    have hlen := getoptScan_length long_options none argv.tail
    simp only []
    cases argv with
    | nil =>
      have hno : (getopt_long [] long_options).nonOpts.length ≠ 2 := by decide
      rw [if_neg hno, if_neg]
      simp only [GetoptRun.optind, List.length_nil]
      omega
    | cons a0 args =>
      simp only [List.tail_cons] at hlen
      have hrun : getopt_long (a0 :: args) long_options = getoptScan long_options none args := rfl
      rw [hrun]
      by_cases h2 : (getoptScan long_options none args).nonOpts.length = 2
      · have hcond : (((getoptScan long_options none args).optind : Nat) : Int)
            = ((a0 :: args).length : Int) - 2 := by
          simp only [GetoptRun.optind, List.length_cons]
          omega
        rw [if_pos h2, if_pos hcond]
        have hpre : ((a0 :: args).take 1 ++ (getoptScan long_options none args).optElems).length
            = (getoptScan long_options none args).optind := by
          simp [GetoptRun.optind]
          omega
        have e0 : ((getoptScan long_options none args).argv (a0 :: args)).getD
            (getoptScan long_options none args).optind []
              = (getoptScan long_options none args).nonOpts.getD 0 [] := by
          unfold GetoptRun.argv
          rw [List.getD_append_right _ _ _ _ (by omega), hpre, Nat.sub_self]
        have e1 : ((getoptScan long_options none args).argv (a0 :: args)).getD
            ((getoptScan long_options none args).optind + 1) []
              = (getoptScan long_options none args).nonOpts.getD 1 [] := by
          unfold GetoptRun.argv
          rw [List.getD_append_right _ _ _ _ (by omega), hpre, Nat.add_sub_cancel_left]
        rw [e0, e1]
      · have hcond : ¬ ((((getoptScan long_options none args).optind : Nat) : Int)
            = ((a0 :: args).length : Int) - 2) := by
          simp only [GetoptRun.optind, List.length_cons]
          omega
        rw [if_neg h2, if_neg hcond]

theorem lookupLong_mem (opts : List extended_option) (name : CString) (o : extended_option)
    (h : lookupLong opts name = some o) : o ∈ opts := by
  unfold lookupLong at h
  split at h
  · next o1 hfind =>
    cases h
    exact List.mem_of_find?_eq_some hfind
  · split at h
    · next o1 hfilter =>
      cases h
      have hm : o ∈ opts.filter (fun o => name.isPrefixOf o.name) := by
        rw [hfilter]
        exact List.mem_singleton.mpr rfl
      exact (List.mem_filter.mp hm).1
    · cases h

theorem classify_option (opts : List extended_option) (arg : CString) :
    (∀ o v, classify opts arg = ArgClass.longValue o v → o ∈ opts ∧ o.has_arg ≠ 0) ∧
    (∀ o, classify opts arg = ArgClass.longBare o → o ∈ opts ∧ o.has_arg ≠ 1) ∧
    (∀ o, classify opts arg = ArgClass.longPending o → o ∈ opts ∧ o.has_arg = 1) ∧
    (∀ o, classify opts arg = ArgClass.longExtra o → o ∈ opts ∧ o.has_arg = 0) := by
  unfold classify
  split
  · simp
  · split
    · simp
    · next o1 _ v1 hl _ =>
      have hm := lookupLong_mem _ _ _ hl
      by_cases h0 : o1.has_arg = 0
      · simp only [h0, if_true]
        refine ⟨?_, ?_, ?_, ?_⟩ <;> intros <;> simp_all
      · simp only [h0, if_false]
        refine ⟨?_, ?_, ?_, ?_⟩ <;> intros <;> simp_all
    · next o1 hl _ =>
      have hm := lookupLong_mem _ _ _ hl
      by_cases h1 : o1.has_arg = 1
      · simp only [h1, if_true]
        refine ⟨?_, ?_, ?_, ?_⟩ <;> intros <;> simp_all
      · simp only [h1, if_false]
        refine ⟨?_, ?_, ?_, ?_⟩ <;> intros <;> simp_all
  · simp
  · simp

theorem getoptScan_rets_ok (opts : List extended_option)
    (hopts : ∀ o ∈ opts, o.has_arg = 1 ∧ o.val ≠ '?' ∧ o.val ≠ ':')
    (pending : Option extended_option) (hp : ∀ o, pending = some o → o ∈ opts)
    (args : List CString) :
    ∀ r ∈ (getoptScan opts pending args).rets, RetOk r := by
  induction args generalizing pending with
  | nil =>
    cases pending with
    | none => simp [getoptScan]
    | some o =>
      intro r hr
      simp only [getoptScan, List.mem_singleton] at hr
      subst hr
      exact Or.inr ⟨rfl, Or.inr rfl⟩
  | cons arg rest ih =>
    have ih0 := ih none (by intro o h; cases h)
    cases pending with
    | some o =>
      intro r hr
      simp only [getoptScan, GetoptRun.consume, List.singleton_append, List.mem_cons] at hr
      rcases hr with hr | hr
      · subst hr
        obtain ⟨_, h1, h2⟩ := hopts o (hp o rfl)
        exact Or.inl ⟨rfl, h1, h2⟩
      · exact ih0 r hr
    | none =>
      obtain ⟨hV, hB, hP, hE⟩ := classify_option opts arg
      intro r hr
      unfold getoptScan at hr
      cases hc : classify opts arg with
      | endOfOptions => rw [hc] at hr; simp at hr
      | nonOption => rw [hc] at hr; exact ih0 r hr
      | shortOptions cs =>
        rw [hc] at hr
        simp only [GetoptRun.consume, List.mem_append, List.mem_map] at hr
        rcases hr with ⟨_, _, hr⟩ | hr
        · subst hr
          exact Or.inr ⟨rfl, Or.inl rfl⟩
        · exact ih0 r hr
      | longUnknown =>
        rw [hc] at hr
        simp only [GetoptRun.consume, List.singleton_append, List.mem_cons] at hr
        rcases hr with hr | hr
        · subst hr
          exact Or.inr ⟨rfl, Or.inl rfl⟩
        · exact ih0 r hr
      | longValue o v =>
        rw [hc] at hr
        simp only [GetoptRun.consume, List.singleton_append, List.mem_cons] at hr
        rcases hr with hr | hr
        · subst hr
          obtain ⟨_, h1, h2⟩ := hopts o (hV o v hc).1
          exact Or.inl ⟨rfl, h1, h2⟩
        · exact ih0 r hr
      | longBare o =>
        exact absurd (hopts o (hB o hc).1).1 (hB o hc).2
      | longPending o =>
        rw [hc] at hr
        simp only [GetoptRun.consume, List.nil_append] at hr
        exact ih (some o) (by intro o1 h; cases h; exact (hP o hc).1) r hr
      | longExtra o =>
        have h1 := (hopts o (hE o hc).1).1
        have h0 := (hE o hc).2
        omega

theorem long_options_ok :
    ∀ o ∈ long_options, o.has_arg = 1 ∧ o.val ≠ '?' ∧ o.val ≠ ':' := by
  decide

theorem getopt_long_rets_ok (argv : List CString) :
    ∀ r ∈ (getopt_long argv long_options).rets, RetOk r :=
  getoptScan_rets_ok long_options long_options_ok none (by intro o h; cases h) argv.tail

theorem retOk_error_iff {r : GetoptRet} (h : RetOk r) :
    (r.c = ':' ∨ r.c = '?') ↔
      (r.err = some GetoptError.unknownOption ∨ r.err = some GetoptError.missingArgument) := by
  rcases h with ⟨he, h1, h2⟩ | ⟨hc, he⟩
  · constructor
    · rintro (h | h)
      · exact absurd h h2
      · exact absurd h h1
    · rw [he]
      rintro (h | h) <;> cases h
  · exact ⟨fun _ => he, fun _ => Or.inr hc⟩

theorem optionStep_flags (lc : Libc F) (cfg cfg1 : Config F) (r : GetoptRet)
    (h : optionStep lc cfg r = some cfg1) :
    cfg1.loadBinary = (if r.c = 'v' then decide (lc.atoi r.optarg ≠ 0) else cfg.loadBinary) ∧
    cfg1.matlab_tsv = (if r.c = 'm' then decide (lc.atoi r.optarg ≠ 0) else cfg.matlab_tsv) := by
  unfold optionStep at h
  split_ifs at h with h1 h2 h3 h4 h5 h6 h7 h8
  all_goals
    cases h
    simp_all

theorem parseOptions_flags (lc : Libc F) (cfg cfg1 : Config F) (rets : List GetoptRet)
    (h : parseOptions lc cfg rets = some cfg1) :
    cfg1.loadBinary =
      (match (rets.filter (fun r => decide (r.c = 'v'))).getLast? with
        | some r => decide (lc.atoi r.optarg ≠ 0)
        | none => cfg.loadBinary) ∧
    cfg1.matlab_tsv =
      (match (rets.filter (fun r => decide (r.c = 'm'))).getLast? with
        | some r => decide (lc.atoi r.optarg ≠ 0)
        | none => cfg.matlab_tsv) := by
  induction rets generalizing cfg with
  | nil =>
    simp only [parseOptions, Option.some.injEq] at h
    subst h
    simp
  | cons r rs ih =>
    unfold parseOptions at h
    cases hstep : optionStep lc cfg r with
    | none => rw [hstep] at h; cases h
    | some cfg2 =>
      rw [hstep] at h
      obtain ⟨ih1, ih2⟩ := ih cfg2 h
      obtain ⟨hs1, hs2⟩ := optionStep_flags lc cfg cfg2 r hstep
      constructor
      · by_cases hv : r.c = 'v'
        · rw [List.filter_cons_of_pos (by simpa using hv), List.getLast?_cons]
          rw [if_pos hv] at hs1
          cases hl : (rs.filter (fun r => decide (r.c = 'v'))).getLast? with
          | none => rw [hl] at ih1; simp [ih1, hs1]
          | some x => rw [hl] at ih1; simp [ih1]
        · rw [List.filter_cons_of_neg (by simpa using hv)]
          rw [if_neg hv] at hs1
          rw [ih1, hs1]
      · by_cases hv : r.c = 'm'
        · rw [List.filter_cons_of_pos (by simpa using hv), List.getLast?_cons]
          rw [if_pos hv] at hs2
          cases hl : (rs.filter (fun r => decide (r.c = 'm'))).getLast? with
          | none => rw [hl] at ih2; simp [ih2, hs2]
          | some x => rw [hl] at ih2; simp [ih2]
        · rw [List.filter_cons_of_neg (by simpa using hv)]
          rw [if_neg hv] at hs2
          rw [ih2, hs2]

theorem getoptScan_some_cons (opts : List extended_option) (o : extended_option)
    (arg : CString) (rest : List CString) :
    getoptScan opts (some o) (arg :: rest)
      = (getoptScan opts none rest).consume [{ c := o.val, optarg := arg, err := none }] arg := by
  rw [getoptScan]

theorem getoptScan_none_cons (opts : List extended_option) (arg : CString)
    (rest : List CString) :
    getoptScan opts none (arg :: rest) =
      match classify opts arg with
      | ArgClass.endOfOptions => { rets := [], optElems := [arg], nonOpts := rest }
      | ArgClass.nonOption =>
        { getoptScan opts none rest with nonOpts := arg :: (getoptScan opts none rest).nonOpts }
      | ArgClass.shortOptions cs =>
        (getoptScan opts none rest).consume
          (cs.map (fun _ => errRet GetoptError.unknownOption)) arg
      | ArgClass.longUnknown =>
        (getoptScan opts none rest).consume [errRet GetoptError.unknownOption] arg
      | ArgClass.longValue o v =>
        (getoptScan opts none rest).consume [{ c := o.val, optarg := v, err := none }] arg
      | ArgClass.longBare o =>
        (getoptScan opts none rest).consume [{ c := o.val, optarg := [], err := none }] arg
      | ArgClass.longPending o => (getoptScan opts (some o) rest).consume [] arg
      | ArgClass.longExtra _ =>
        (getoptScan opts none rest).consume [errRet GetoptError.unexpectedArgument] arg := by
  rw [getoptScan]

theorem scanState_none_cons (opts : List extended_option) (arg : CString)
    (rest : List CString) :
    scanState opts none (arg :: rest) =
      match classify opts arg with
      | ArgClass.endOfOptions => none
      | ArgClass.longPending o => scanState opts (some o) rest
      | _ => scanState opts none rest := by
  rw [scanState]

theorem getoptScan_append (opts : List extended_option) (p : Option extended_option)
    (pre rest : List CString) (h : scanState opts p pre = some none) :
    getoptScan opts p (pre ++ rest) =
      { rets := (getoptScan opts p pre).rets ++ (getoptScan opts none rest).rets
        optElems := (getoptScan opts p pre).optElems ++ (getoptScan opts none rest).optElems
        nonOpts := (getoptScan opts p pre).nonOpts ++ (getoptScan opts none rest).nonOpts } := by
  induction pre generalizing p with
  | nil =>
    simp only [scanState, Option.some.injEq] at h
    subst h
    simp [getoptScan]
  | cons arg pre ih =>
    cases p with
    | some o =>
      have h0 : scanState opts none pre = some none := by simpa [scanState] using h
      rw [List.cons_append, getoptScan_some_cons, getoptScan_some_cons, ih none h0]
      simp [GetoptRun.consume]
    | none =>
      rw [scanState_none_cons] at h
      rw [List.cons_append, getoptScan_none_cons, getoptScan_none_cons]
      cases hc : classify opts arg with
      | endOfOptions => rw [hc] at h; cases h
      | longPending o =>
        rw [hc] at h
        simp only [] at h
        simp only [GetoptRun.consume]
        rw [ih (some o) h]
        simp
      | nonOption =>
        rw [hc] at h
        simp only [] at h
        simp only []
        rw [ih none h]
        simp
      | shortOptions cs =>
        rw [hc] at h
        simp only [] at h
        simp only [GetoptRun.consume]
        rw [ih none h]
        simp
      | longUnknown =>
        rw [hc] at h
        simp only [] at h
        simp only [GetoptRun.consume]
        rw [ih none h]
        simp
      | longValue o v =>
        rw [hc] at h
        simp only [] at h
        simp only [GetoptRun.consume]
        rw [ih none h]
        simp
      | longBare o =>
        rw [hc] at h
        simp only [] at h
        simp only [GetoptRun.consume]
        rw [ih none h]
        simp
      | longExtra o =>
        rw [hc] at h
        simp only [] at h
        simp only [GetoptRun.consume]
        rw [ih none h]
        simp

theorem lookupLong_seed : lookupLong long_options ['s', 'e', 'e', 'd'] = some seedRow := by
  decide

theorem classify_seed_value (v : CString) :
    classify long_options ('-' :: '-' :: 's' :: 'e' :: 'e' :: 'd' :: '=' :: v)
      = ArgClass.longValue seedRow v := by
  have h1 : List.takeWhile (fun ch => ch != '=') ('s' :: 'e' :: 'e' :: 'd' :: '=' :: v)
      = ['s', 'e', 'e', 'd'] := by
    simp [List.takeWhile]
  have h2 : List.dropWhile (fun ch => ch != '=') ('s' :: 'e' :: 'e' :: 'd' :: '=' :: v)
      = '=' :: v := by
    simp [List.dropWhile]
  unfold classify
  simp only [h1, h2, lookupLong_seed]
  rfl

theorem classify_seed_bare :
    classify long_options ['-', '-', 's', 'e', 'e', 'd'] = ArgClass.longPending seedRow := by
  decide

theorem main_eq_of_parse (lc : Libc F) (argv1 argv2 : List CString)
    (hopts : (getopt_long argv1 long_options).rets.filter (fun r => decide (r.c ≠ 's'))
      = (getopt_long argv2 long_options).rets.filter (fun r => decide (r.c ≠ 's')))
    (hpos : (getopt_long argv1 long_options).nonOpts = (getopt_long argv2 long_options).nonOpts) :
    main lc argv1 = main lc argv2 := by
  rw [main_eq lc argv1, main_eq lc argv2, parseOptions_filter_seed lc _ (getopt_long argv1 _).rets,
    parseOptions_filter_seed lc _ (getopt_long argv2 _).rets, hopts, hpos]

/-- Putting `--seed=v` or `--seed v` into an argument list, at a place where
`getopt_long` is looking for an option, does not change what `main` does. -/
theorem seed_option_insertion (lc : Libc F) (prog v : CString) (pre post : List CString)
    (hpre : scanState long_options none pre = some none) :
    main lc (prog :: (pre ++ ('-' :: '-' :: 's' :: 'e' :: 'e' :: 'd' :: '=' :: v) :: post))
      = main lc (prog :: (pre ++ post)) ∧
    main lc (prog :: (pre ++ ['-', '-', 's', 'e', 'e', 'd'] :: v :: post))
      = main lc (prog :: (pre ++ post)) := by
  have hbase := getoptScan_append long_options none pre post hpre
  have hval : getoptScan long_options none
      (('-' :: '-' :: 's' :: 'e' :: 'e' :: 'd' :: '=' :: v) :: post)
      = (getoptScan long_options none post).consume [{ c := 's', optarg := v, err := none }]
          ('-' :: '-' :: 's' :: 'e' :: 'e' :: 'd' :: '=' :: v) := by
    rw [getoptScan_none_cons, classify_seed_value]
    rfl
  have hbare : getoptScan long_options none (['-', '-', 's', 'e', 'e', 'd'] :: v :: post)
      = ((getoptScan long_options none post).consume [{ c := 's', optarg := v, err := none }]
          v).consume [] ['-', '-', 's', 'e', 'e', 'd'] := by
    rw [getoptScan_none_cons, classify_seed_bare]
    simp only []
    rw [getoptScan_some_cons]
    rfl
  constructor
  · apply main_eq_of_parse
    · simp only [getopt_long, List.tail_cons]
      rw [getoptScan_append long_options none pre _ hpre, hbase, hval]
      simp [GetoptRun.consume]
    · simp only [getopt_long, List.tail_cons]
      rw [getoptScan_append long_options none pre _ hpre, hbase, hval]
      simp [GetoptRun.consume]
  · apply main_eq_of_parse
    · simp only [getopt_long, List.tail_cons]
      rw [getoptScan_append long_options none pre _ hpre, hbase, hbare]
      simp [GetoptRun.consume]
    · simp only [getopt_long, List.tail_cons]
      rw [getoptScan_append long_options none pre _ hpre, hbase, hbare]
      simp [GetoptRun.consume]

end Options

/-! ## Claims about `main` -/

/-- C6: `main` prints the usage text `<train file> <test file>` and exits with status `-1`,
before any scanner is constructed, if and only if option parsing meets an unknown option or
an option without its argument, or the number of non-option arguments left after the
options is not exactly two.  `-1` is the only exit status of this stage, and otherwise the
first non-option argument is the training file and the second the test file. -/
theorem main_usage_exit_iff {F : Type} (lc : Libc F) (argv : List CString) :
    usage_str = "<train file> <test file>".toList ∧
    (main lc argv = MainOutcome.usageExit usage_str (-1) ↔
      ((∃ r ∈ (getopt_long argv long_options).rets,
          r.err = some GetoptError.unknownOption ∨ r.err = some GetoptError.missingArgument)
        ∨ (getopt_long argv long_options).nonOpts.length ≠ 2)) ∧
    (∀ usage status, main lc argv = MainOutcome.usageExit usage status →
      usage = usage_str ∧ status = -1) ∧
    (∀ cfg ex te tk sk, main lc argv = MainOutcome.loading cfg ex te tk sk →
      (getopt_long argv long_options).nonOpts = [ex, te]) ∧
    (¬ ((∃ r ∈ (getopt_long argv long_options).rets,
          r.err = some GetoptError.unknownOption ∨ r.err = some GetoptError.missingArgument)
        ∨ (getopt_long argv long_options).nonOpts.length ≠ 2) →
      ∃ cfg, main lc argv = MainOutcome.loading cfg
        ((getopt_long argv long_options).nonOpts.getD 0 [])
        ((getopt_long argv long_options).nonOpts.getD 1 []) (trainScanner cfg)
        (testScanner cfg)) := by
  have hok := getopt_long_rets_ok argv
  have herr : (∃ r ∈ (getopt_long argv long_options).rets, r.c = ':' ∨ r.c = '?') ↔
      (∃ r ∈ (getopt_long argv long_options).rets,
        r.err = some GetoptError.unknownOption ∨ r.err = some GetoptError.missingArgument) := by
    constructor
    · rintro ⟨r, hr, h⟩
      exact ⟨r, hr, (retOk_error_iff (hok r hr)).mp h⟩
    · rintro ⟨r, hr, h⟩
      exact ⟨r, hr, (retOk_error_iff (hok r hr)).mpr h⟩
  have hnone := parseOptions_eq_none lc (Config.initial lc) (getopt_long argv long_options).rets
  rw [herr] at hnone
  have hmain := main_eq lc argv
  cases hp : parseOptions lc (Config.initial lc) (getopt_long argv long_options).rets with
  | none =>
    rw [hp] at hmain
    have he := hnone.mp hp
    simp only [] at hmain
    refine ⟨rfl, ?_, ?_, ?_, ?_⟩
    · exact ⟨fun _ => Or.inl he, fun _ => hmain⟩
    · intro usage status h
      rw [hmain] at h
      cases h
      exact ⟨rfl, rfl⟩
    · intro cfg ex te tk sk h
      rw [hmain] at h
      cases h
    · intro hneg
      exact absurd (Or.inl he) hneg
  | some cfg =>
    rw [hp] at hmain
    simp only [] at hmain
    have hne : ¬ ∃ r ∈ (getopt_long argv long_options).rets,
        r.err = some GetoptError.unknownOption ∨ r.err = some GetoptError.missingArgument := by
      intro he
      rw [hnone.mpr he] at hp
      cases hp
    by_cases h2 : (getopt_long argv long_options).nonOpts.length = 2
    · rw [if_pos h2] at hmain
      refine ⟨rfl, ?_, ?_, ?_, ?_⟩
      · constructor
        · intro h
          rw [hmain] at h
          cases h
        · rintro (h | h)
          · exact absurd h hne
          · exact absurd h2 h
      · intro usage status h
        rw [hmain] at h
        cases h
      · intro cfg1 ex te tk sk h
        rw [hmain] at h
        cases h
        match hl : (getopt_long argv long_options).nonOpts, h2 with
        | [a, b], _ => rfl
      · intro _
        exact ⟨cfg, hmain⟩
    · rw [if_neg h2] at hmain
      refine ⟨rfl, ?_, ?_, ?_, ?_⟩
      · exact ⟨fun _ => Or.inr h2, fun _ => hmain⟩
      · intro usage status h
        rw [hmain] at h
        cases h
        exact ⟨rfl, rfl⟩
      · intro cfg1 ex te tk sk h
        rw [hmain] at h
        cases h
      · intro hneg
        exact absurd (Or.inr h2) hneg

/-- C8: whenever `main` gets as far as loading, the training file is read with the binary
scanner if the effective `--binary` setting is non-zero (whatever `--matlab-tsv` is), else
with the Matlab TSV scanner if the effective `--matlab-tsv` setting is non-zero, else with
the 0-based TSV scanner; the test file is read with the Matlab TSV scanner if
`--matlab-tsv` is non-zero and with the TSV scanner otherwise, never with the binary one. -/
theorem scanner_selection {F : Type} (lc : Libc F) (argv : List CString) (cfg : Config F)
    (ex te : CString) (tk sk : ScanKind)
    (h : main lc argv = MainOutcome.loading cfg ex te tk sk) :
    cfg.loadBinary = flagSetting lc 'v' (getopt_long argv long_options).rets ∧
    cfg.matlab_tsv = flagSetting lc 'm' (getopt_long argv long_options).rets ∧
    tk = (if flagSetting lc 'v' (getopt_long argv long_options).rets
          then ScanKind.BinaryFileScanner
          else if flagSetting lc 'm' (getopt_long argv long_options).rets
          then ScanKind.MatlabTSVFileScanner else ScanKind.TSVFileScanner) ∧
    sk = (if flagSetting lc 'm' (getopt_long argv long_options).rets
          then ScanKind.MatlabTSVFileScanner else ScanKind.TSVFileScanner) ∧
    sk ≠ ScanKind.BinaryFileScanner := by
  have hmain := main_eq lc argv
  cases hp : parseOptions lc (Config.initial lc) (getopt_long argv long_options).rets with
  | none =>
    rw [hp, h] at hmain
    cases hmain
  | some cfg1 =>
    rw [hp, h] at hmain
    simp only [] at hmain
    by_cases h2 : (getopt_long argv long_options).nonOpts.length = 2
    · rw [if_pos h2] at hmain
      cases hmain
      obtain ⟨hb, hm⟩ := parseOptions_flags lc _ _ _ hp
      have hb1 : cfg.loadBinary = flagSetting lc 'v' (getopt_long argv long_options).rets := by
        rw [hb]
        rfl
      have hm1 : cfg.matlab_tsv = flagSetting lc 'm' (getopt_long argv long_options).rets := by
        rw [hm]
        rfl
      refine ⟨hb1, hm1, ?_, ?_, ?_⟩
      · unfold trainScanner
        rw [hb1, hm1]
      · unfold testScanner
        rw [hm1]
      · unfold testScanner
        split_ifs <;> decide
    · rw [if_neg h2] at hmain
      cases hmain

theorem scanner_selection_witness :
    main textLibc ["numasvm".toList, "--binary=1".toList, "--matlab-tsv".toList, "1".toList,
        "train.bin".toList, "test.tsv".toList]
      = MainOutcome.loading
          { Config.initial textLibc with loadBinary := true, matlab_tsv := true }
          "train.bin".toList "test.tsv".toList
          ScanKind.BinaryFileScanner ScanKind.MatlabTSVFileScanner ∧
    ScanKind.BinaryFileScanner
      = (if flagSetting textLibc 'v' (getopt_long ["numasvm".toList, "--binary=1".toList,
            "--matlab-tsv".toList, "1".toList, "train.bin".toList, "test.tsv".toList]
            long_options).rets
          then ScanKind.BinaryFileScanner
          else if flagSetting textLibc 'm' (getopt_long ["numasvm".toList, "--binary=1".toList,
            "--matlab-tsv".toList, "1".toList, "train.bin".toList, "test.tsv".toList]
            long_options).rets
          then ScanKind.MatlabTSVFileScanner else ScanKind.TSVFileScanner) :=
  ⟨by decide,
   (scanner_selection textLibc ["numasvm".toList, "--binary=1".toList, "--matlab-tsv".toList,
      "1".toList, "train.bin".toList, "test.tsv".toList]
      { Config.initial textLibc with loadBinary := true, matlab_tsv := true }
      "train.bin".toList "test.tsv".toList
      ScanKind.BinaryFileScanner ScanKind.MatlabTSVFileScanner (by decide)).2.2.1⟩

/-- C10: `--seed` is a row of the option table (with a required argument, returned as
`'s'`), and a return of `'s'` leaves every local of `main` unchanged.  Hence two argument
lists whose parsed options agree once the `--seed` entries are deleted, and whose
non-option arguments agree, give the same outcome of `main`: the same usage exit, or the
same parsed locals, training file, test file and scanners. -/
theorem seed_has_no_effect {F : Type} (lc : Libc F) (argv1 argv2 : List CString)
    (hopts : (getopt_long argv1 long_options).rets.filter (fun r => decide (r.c ≠ 's'))
      = (getopt_long argv2 long_options).rets.filter (fun r => decide (r.c ≠ 's')))
    (hpos : (getopt_long argv1 long_options).nonOpts = (getopt_long argv2 long_options).nonOpts) :
    (∃ o ∈ long_options, o.name = "seed".toList ∧ o.has_arg = required_argument ∧ o.val = 's') ∧
    (∀ (cfg : Config F) (r : GetoptRet), r.c = 's' → optionStep lc cfg r = some cfg) ∧
    main lc argv1 = main lc argv2 := by
  refine ⟨by decide, fun cfg r hr => optionStep_seed lc cfg r hr, ?_⟩
  rw [main_eq lc argv1, main_eq lc argv2, parseOptions_filter_seed lc _ (getopt_long argv1 _).rets,
    parseOptions_filter_seed lc _ (getopt_long argv2 _).rets, hopts, hpos]

theorem seed_has_no_effect_witness :
    main textLibc ["numasvm".toList, "--seed=7".toList, "--mu=2.5".toList, "a".toList,
        "b".toList]
      = main textLibc ["numasvm".toList, "--mu=2.5".toList, "a".toList, "--seed".toList,
        "99".toList, "b".toList] :=
  (seed_has_no_effect textLibc
    ["numasvm".toList, "--seed=7".toList, "--mu=2.5".toList, "a".toList, "b".toList]
    ["numasvm".toList, "--mu=2.5".toList, "a".toList, "--seed".toList, "99".toList, "b".toList]
    (by decide) (by decide)).2.2

/-! ## Worked instances -/

example : atomic_mask 1 = 1 := by decide
example : atomic_mask 2 = 3 := by decide
example : atomic_mask 3 = 3 := by decide
example : atomic_mask 4 = 7 := by decide
example : increments 2 2 = [1, 2] := by decide
example : increments 1 1 = [1] := by decide
example : increments 1 5 = [-3] := by decide

example : main textLibc ["prog".toList, "only".toList]
    = MainOutcome.usageExit usage_str (-1) := by decide

example : main textLibc ["prog".toList, "a".toList, "b".toList, "c".toList]
    = MainOutcome.usageExit usage_str (-1) := by decide

example : main textLibc ["prog".toList, "--bogus=1".toList, "a".toList, "b".toList]
    = MainOutcome.usageExit usage_str (-1) := by decide

example : main textLibc ["prog".toList, "a".toList, "b".toList, "--epochs".toList]
    = MainOutcome.usageExit usage_str (-1) := by decide

example : main textLibc ["prog".toList, "--s=1".toList, "a".toList, "b".toList]
    = MainOutcome.usageExit usage_str (-1) := by decide

example : main textLibc ["prog".toList, "-r".toList, "a".toList, "b".toList]
    = MainOutcome.usageExit usage_str (-1) := by decide

example : main textLibc ["prog".toList, "--splits=4".toList, "--".toList, "--mu".toList, "b".toList]
    = MainOutcome.loading { Config.initial textLibc with nthreads := 4 } "--mu".toList "b".toList
        ScanKind.TSVFileScanner ScanKind.TSVFileScanner := by decide

example : main textLibc ["prog".toList, "--binary=1".toList, "a".toList, "b".toList]
    = MainOutcome.loading { Config.initial textLibc with loadBinary := true } "a".toList
        "b".toList ScanKind.BinaryFileScanner ScanKind.TSVFileScanner := by decide

example : main textLibc ["prog".toList, "--seed=7".toList, "a".toList, "--mu".toList, "2.5".toList, "b".toList]
    = MainOutcome.loading { Config.initial textLibc with mu := "2.5".toList } "a".toList "b".toList
        ScanKind.TSVFileScanner ScanKind.TSVFileScanner := by decide

end Hogwild
